import Mathlib

/-!
Shallow embedding of the bracket-graph validator and renderer of
`src/main.py` (class `BracketStructure`).

Modelling conventions:
* Python `dict`s are association lists kept in insertion order; real inputs
  have unique keys (a Python dict cannot hold duplicates), so theorems that
  need key uniqueness take a `Nodup` hypothesis.
* Python `set`s of ints are plain lists used only up to membership;
  `sorted(<set>)` is modelled by `sortedSet`, which produces the strictly
  ascending list of the members.
* The memoization caches of `_possible_winners` / `game_round` are dropped:
  they only cache results of the same pure computation.
* Functions that Python defines by unbounded recursion (`dfs`,
  `_possible_winners`, `game_round`, `assign_positions`) carry an extra
  `visiting` path argument used solely as a termination measure; the branch
  taken when the argument repeats mirrors Python's behaviour for `dfs` and
  is an explicitly marked artifact (unreachable on validated input) for the
  others.
-/

abbrev Slots := Option Int × Option Int

structure BracketStructure where
  final_game : Int
  structure' : List (Int × Slots)
  games : List (Int × Slots)
deriving DecidableEq, Repr

/-- Python dict lookup over the association list (keys are unique in real
inputs, we return the first match). -/
def lookupKey (k : Int) : List (Int × Slots) → Option Slots
  | [] => none
  | (k', v) :: rest => if k = k' then some v else lookupKey k rest

/-- `game_ids = set(self.structure.keys())`, as the key list. -/
def structKeys (b : BracketStructure) : List Int := b.structure'.map Prod.fst

/-- `self.games.get(game_id, (None, None))`. -/
def gamesGet (b : BracketStructure) (g : Int) : Slots :=
  (lookupKey g b.games).getD (none, none)

/-- Insert into a strictly ascending list, skipping duplicates. -/
def insertSorted (x : Int) : List Int → List Int
  | [] => [x]
  | y :: rest =>
    if x < y then x :: y :: rest
    else if x = y then y :: rest
    else y :: insertSorted x rest

/-- Model of Python `sorted(<set of ints>)`: the strictly ascending list of
the members of `l`. -/
def sortedSet (l : List Int) : List Int := l.foldr insertSorted []

/-- Python `repr` of an `int | None` value. -/
def fmtOpt : Option Int → String
  | none => "None"
  | some t => toString t

/-- Python `repr` of a validated feeder tuple, e.g. `(None, 1)`. -/
def fmtPair (p : Slots) : String := "(" ++ fmtOpt p.1 ++ ", " ++ fmtOpt p.2 ++ ")"

/-! Error messages, verbatim from `_validate_bracket`. -/

def finalKeyMsg (fg : Int) : String :=
  s!"final_game {fg} must exist as a key in structure."

def mixedMsg (g : Int) (p : Slots) : String :=
  let t := fmtPair p
  s!"Game {g} is non-leaf and must have two non-null inputs, got {t}."

def selfRefMsg (g : Int) : String :=
  s!"Game {g} cannot reference itself as an input."

def missingMsg (g c : Int) : String :=
  s!"Game {g} references missing input game {c}."

def noLeafMsg : String :=
  "Bracket must contain at least one leaf game with [null, null] inputs."

def finalFanInMsg (g : Int) (c : Nat) : String :=
  s!"final_game {g} must be referenced by exactly 0 games, got {c}."

def fanInMsg (g : Int) (c : Nat) : String :=
  s!"Game {g} must be referenced by exactly 1 game, got {c}."

def unknownGameMsg (g : Int) : String :=
  s!"games contains unknown game id {g}; expected ids in structure."

def dupTeamMsg (g t : Int) : String :=
  s!"Game {g} cannot contain duplicate team id {t} in both slots."

def cycleMsg (n : Int) : String :=
  s!"Cycle detected at game {n}."

def unreachMsg (fg : Int) (l : List Int) : String :=
  s!"All games must be reachable from final_game {fg}; unreachable games: {l}."

def notDerivableLeftMsg (g t f : Int) (poss : List Int) : String :=
  s!"Game {g} left slot team {t} is not derivable from feeder game {f}; possible: {poss}."

def notDerivableRightMsg (g t f : Int) (poss : List Int) : String :=
  s!"Game {g} right slot team {t} is not derivable from feeder game {f}; possible: {poss}."

/-! Validation phase 1: `final_game` must be a structure key. -/

def keyErrors (b : BracketStructure) : List String :=
  if b.final_game ∈ structKeys b then [] else [finalKeyMsg b.final_game]

/-! Validation phase 2: the loop over `structure.items()` (shape, self
reference, missing feeder).  The `len(inputs) != 2` branch of the source is
unrepresentable here: pydantic has already coerced every value to a 2-tuple,
which the `Slots` type reflects. -/

def childErrors (keys : List Int) (gid c : Int) : List String :=
  if c = gid then [selfRefMsg gid]
  else if c ∈ keys then [] else [missingMsg gid c]

def itemErrors (keys : List Int) (gid : Int) (p : Slots) : List String :=
  match p with
  | (none, none) => []
  | (some lc, some rc) => childErrors keys gid lc ++ childErrors keys gid rc
  | _ => [mixedMsg gid p]

def shapeErrors (b : BracketStructure) : List String :=
  (b.structure'.map (fun it => itemErrors (structKeys b) it.1 it.2)).flatten

/-! Validation phase 3: at least one leaf. -/

def leafCount (b : BracketStructure) : Nat :=
  (b.structure'.filter (fun it => decide (it.2.1 = none ∧ it.2.2 = none))).length

def leafErrors (b : BracketStructure) : List String :=
  if leafCount b = 0 then [noLeafMsg] else []

/-! Validation phase 4: fan-in counting.  `incoming_counts[child] += 1` runs
only for internal games and only for children that are neither the game
itself nor missing from the key set, exactly as in the source loop. -/

def slotHit (keys : List Int) (gid c g : Int) : Nat :=
  if c = gid then 0 else if c ∈ keys then (if c = g then 1 else 0) else 0

def itemIncoming (keys : List Int) (gid : Int) (p : Slots) (g : Int) : Nat :=
  match p with
  | (some lc, some rc) => slotHit keys gid lc g + slotHit keys gid rc g
  | _ => 0

def incoming_count (b : BracketStructure) (g : Int) : Nat :=
  (b.structure'.map (fun it => itemIncoming (structKeys b) it.1 it.2 g)).sum

def fanInErrors (b : BracketStructure) : List String :=
  (structKeys b).filterMap (fun gid =>
    let c := incoming_count b gid
    if gid = b.final_game then
      if c ≠ 0 then some (finalFanInMsg gid c) else none
    else if c ≠ 1 then some (fanInMsg gid c) else none)

/-! Validation phase 5: the loop over `games.items()` (unknown game id,
duplicate team in the two slots). -/

def gameEntryErrors (keys : List Int) (gid : Int) (p : Slots) : List String :=
  if gid ∈ keys then
    match p with
    | (some a, some b) => if a = b then [dupTeamMsg gid a] else []
    | _ => []
  else [unknownGameMsg gid]

def assignmentErrors (b : BracketStructure) : List String :=
  (b.games.map (fun it => gameEntryErrors (structKeys b) it.1 it.2)).flatten

/-! Validation phase 6: cycle / reachability detection (`dfs` inside
`_validate_bracket`).  `visiting` is the set of nodes currently on the
recursion stack; since the Python code removes a node from `visiting` right
after its recursive calls return, `visiting` is exactly the path to the
current node and is modelled as a downward parameter.  `visited` collects
finished nodes in finishing order (Python uses a set; only membership is
observable there). -/

structure DfsAcc where
  visited : List Int
  errors : List String
deriving DecidableEq, Repr

theorem lookupKey_mem_keys {k : Int} {l : List (Int × Slots)} {v : Slots}
    (h : lookupKey k l = some v) : k ∈ l.map Prod.fst := by
  induction l with
  | nil => simp [lookupKey] at h
  | cons hd tl ih =>
    rw [lookupKey] at h
    split at h
    · rename_i heq
      simp [heq]
    · simpa using Or.inr (ih h)

theorem filter_sub_le (xs : List Int) (a : Int) (v : List Int) :
    (xs.filter (fun k => decide (k ∉ a :: v))).length
      ≤ (xs.filter (fun k => decide (k ∉ v))).length := by
  apply List.Sublist.length_le
  apply List.monotone_filter_right
  intro b hb
  simp only [decide_eq_true_eq, List.mem_cons] at hb ⊢
  exact fun hbv => hb (Or.inr hbv)

theorem filter_visiting_lt {l v : List Int} {a : Int}
    (ha : a ∈ l) (hv : a ∉ v) :
    (l.filter (fun k => decide (k ∉ a :: v))).length
      < (l.filter (fun k => decide (k ∉ v))).length := by
  induction l with
  | nil => simp at ha
  | cons x xs ih =>
    by_cases hxa : x = a
    · subst hxa
      have h1 : (x :: xs).filter (fun k => decide (k ∉ x :: v)) =
          xs.filter (fun k => decide (k ∉ x :: v)) := by
        simp [List.filter_cons]
      have h2 : (x :: xs).filter (fun k => decide (k ∉ v)) =
          x :: xs.filter (fun k => decide (k ∉ v)) := by
        simp [List.filter_cons, hv]
      rw [h1, h2, List.length_cons]
      exact Nat.lt_succ_of_le (filter_sub_le xs x v)
    · have ha' : a ∈ xs := by
        rcases List.mem_cons.mp ha with h | h
        · exact absurd h.symm hxa
        · exact h
      by_cases hxv : x ∈ v
      · have h1 : (x :: xs).filter (fun k => decide (k ∉ a :: v)) =
            xs.filter (fun k => decide (k ∉ a :: v)) := by
          simp [List.filter_cons, List.mem_cons, hxv]
        have h2 : (x :: xs).filter (fun k => decide (k ∉ v)) =
            xs.filter (fun k => decide (k ∉ v)) := by
          simp [List.filter_cons, hxv]
        rw [h1, h2]
        exact ih ha'
      · have h1 : (x :: xs).filter (fun k => decide (k ∉ a :: v)) =
            x :: xs.filter (fun k => decide (k ∉ a :: v)) := by
          simp [List.filter_cons, List.mem_cons, hxv, hxa]
        have h2 : (x :: xs).filter (fun k => decide (k ∉ v)) =
            x :: xs.filter (fun k => decide (k ∉ v)) := by
          simp [List.filter_cons, hxv]
        rw [h1, h2, List.length_cons, List.length_cons]
        exact Nat.succ_lt_succ (ih ha')

def dfs (b : BracketStructure) (visiting : List Int) (node : Int)
    (acc : DfsAcc) : DfsAcc :=
  if hv : node ∈ visiting then ⟨acc.visited, acc.errors ++ [cycleMsg node]⟩
  else if node ∈ acc.visited then acc
  else
    match h : lookupKey node b.structure' with
    | none => acc  -- Python raises KeyError; `dfs` is only invoked on structure keys
    | some (l, r) =>
      let acc1 :=
        match l with
        | some c =>
          if (lookupKey c b.structure').isSome then dfs b (node :: visiting) c acc
          else acc
        | none => acc
      let acc2 :=
        match r with
        | some c =>
          if (lookupKey c b.structure').isSome then dfs b (node :: visiting) c acc1
          else acc1
        | none => acc1
      ⟨acc2.visited ++ [node], acc2.errors⟩
termination_by ((structKeys b).filter (fun k => decide (k ∉ visiting))).length
decreasing_by
  · exact filter_visiting_lt (lookupKey_mem_keys h) hv
  · exact filter_visiting_lt (lookupKey_mem_keys h) hv

def dfsResult (b : BracketStructure) : DfsAcc :=
  dfs b [] b.final_game ⟨[], []⟩

/-- `sorted(game_ids - visited)`. -/
def unreachableSorted (b : BracketStructure) (visited : List Int) : List Int :=
  sortedSet ((structKeys b).filter (fun k => decide (k ∉ visited)))

/-- The errors appended by the cycle/reachability block.  The Python code
appends them to the one shared `errors` list; since `dfs` only ever appends,
running it here on an empty error list captures exactly its contribution. -/
def reachErrors (b : BracketStructure) : List String :=
  if b.final_game ∈ structKeys b then
    let res := dfsResult b
    let unr := unreachableSorted b res.visited
    res.errors ++ (if unr = [] then [] else [unreachMsg b.final_game unr])
  else []

/-! Winner-set computation `_possible_winners` (cache dropped, see header). -/

def optTeamList : Option Int → List Int
  | some t => [t]
  | none => []

def pwAux (b : BracketStructure) (visiting : List Int) (g : Int) : List Int :=
  if hv : g ∈ visiting then []  -- artifact: Python recurses forever on a cycle
  else
    match h : lookupKey g b.structure' with
    | none => []  -- artifact: Python raises KeyError
    | some (lf, rf) =>
      match lf, rf with
      | none, none =>
        optTeamList (gamesGet b g).1 ++ optTeamList (gamesGet b g).2
      | lf, rf =>
        let leftC :=
          match (gamesGet b g).1 with
          | some t => [t]
          | none =>
            match lf with
            | some c => pwAux b (g :: visiting) c
            | none => []  -- artifact: Python raises KeyError on structure[None]
        let rightC :=
          match (gamesGet b g).2 with
          | some t => [t]
          | none =>
            match rf with
            | some c => pwAux b (g :: visiting) c
            | none => []  -- artifact: Python raises KeyError on structure[None]
        leftC ++ rightC
termination_by ((structKeys b).filter (fun k => decide (k ∉ visiting))).length
decreasing_by
  · exact filter_visiting_lt (lookupKey_mem_keys h) hv
  · exact filter_visiting_lt (lookupKey_mem_keys h) hv

def possible_winners (b : BracketStructure) (g : Int) : List Int :=
  pwAux b [] g

/-! Validation phase 7: derivability (runs only when no prior error). -/

def derivSlotErrors (b : BracketStructure) (gid : Int) (team feeder : Option Int)
    (isLeft : Bool) : List String :=
  match team, feeder with
  | some t, some f =>
    let poss := possible_winners b f
    if t ∈ poss then []
    else if isLeft then [notDerivableLeftMsg gid t f (sortedSet poss)]
    else [notDerivableRightMsg gid t f (sortedSet poss)]
  | some _, none => []  -- artifact: mixed pair, impossible when prior checks passed
  | none, _ => []

def derivItemErrors (b : BracketStructure) (gid : Int) (p : Slots) : List String :=
  match p with
  | (none, none) => []
  | (lf, rf) =>
    derivSlotErrors b gid (gamesGet b gid).1 lf true
      ++ derivSlotErrors b gid (gamesGet b gid).2 rf false

def derivErrors (b : BracketStructure) : List String :=
  (b.structure'.map (fun it => derivItemErrors b it.1 it.2)).flatten

/-! The assembled validator of `_validate_bracket`, in source order. -/

def preDerivErrors (b : BracketStructure) : List String :=
  keyErrors b ++ shapeErrors b ++ leafErrors b ++ fanInErrors b
    ++ assignmentErrors b ++ reachErrors b

def validateErrors (b : BracketStructure) : List String :=
  preDerivErrors b ++ (if preDerivErrors b = [] then derivErrors b else [])

/-- The pydantic `model_validator`: return the value unchanged, or raise one
`ValueError` whose message joins every collected error with single spaces. -/
def mkBracket (b : BracketStructure) : Except String BracketStructure :=
  if validateErrors b = [] then .ok b
  else .error ("Invalid bracket structure: "
    ++ String.intercalate " " (validateErrors b))

/-! Renderer (`to_ascii_bracket`): round computation, `parent_by_game`,
vertical layout, character canvas. -/

/-- `game_round`, with the memo cache dropped and the `visiting` termination
argument added (Python recurses unboundedly on a cyclic structure). -/
def roundAux (b : BracketStructure) (visiting : List Int) (g : Int) : Nat :=
  if hv : g ∈ visiting then 0  -- artifact: unreachable on validated input
  else
    match h : lookupKey g b.structure' with
    | none => 0  -- artifact: Python raises KeyError
    | some (l, r) =>
      match l, r with
      | none, none => 0
      | l, r =>
        let lr := match l with
          | some c => roundAux b (g :: visiting) c
          | none => 0  -- artifact: Python raises KeyError on structure[None]
        let rr := match r with
          | some c => roundAux b (g :: visiting) c
          | none => 0  -- artifact
        1 + max lr rr
termination_by ((structKeys b).filter (fun k => decide (k ∉ visiting))).length
decreasing_by
  · exact filter_visiting_lt (lookupKey_mem_keys h) hv
  · exact filter_visiting_lt (lookupKey_mem_keys h) hv

def game_round (b : BracketStructure) (g : Int) : Nat := roundAux b [] g

/-- `parent_by_game`: maps a child game to `(parent, slot)`; built over the
structure items in order, a later item overwrites an earlier one. -/
def parent_by_game (b : BracketStructure) : Int → Option (Int × Nat) :=
  b.structure'.foldl
    (fun m it =>
      let m1 : Int → Option (Int × Nat) :=
        match it.2.1 with
        | some c => fun x => if x = c then some (it.1, 0) else m x
        | none => m
      match it.2.2 with
      | some c => fun x => if x = c then some (it.1, 1) else m1 x
      | none => m1)
    (fun _ => none)

structure LayoutState where
  slotY : Int → Nat → Option Nat
  centerY : Int → Option Nat
  leafCursor : Nat

def updSlot (f : Int → Nat → Option Nat) (g : Int) (s v : Nat) :
    Int → Nat → Option Nat :=
  fun g' s' => if g' = g ∧ s' = s then some v else f g' s'

def updCenter (f : Int → Option Nat) (g : Int) (v : Nat) : Int → Option Nat :=
  fun g' => if g' = g then some v else f g'

/-- `assign_positions` (post-order layout).  All row arithmetic stays in ℕ:
the Python values are manifestly non-negative and `//` on non-negatives is ℕ
division. -/
def assign_positions (b : BracketStructure) (visiting : List Int) (g : Int)
    (st : LayoutState) : LayoutState :=
  if hv : g ∈ visiting then st  -- artifact: unreachable on validated input
  else
    match h : lookupKey g b.structure' with
    | none => st  -- artifact: Python raises KeyError
    | some (l, r) =>
      match l, r with
      | none, none =>
        let top := st.leafCursor + 1
        let bottom := st.leafCursor + 3
        { slotY := updSlot (updSlot st.slotY g 0 top) g 1 bottom
          centerY := updCenter st.centerY g (top + 1)
          leafCursor := st.leafCursor + 5 }
      | l, r =>
        let st1 := match l with
          | some c => assign_positions b (g :: visiting) c st
          | none => st  -- artifact: Python raises KeyError on structure[None]
        let st2 := match r with
          | some c => assign_positions b (g :: visiting) c st1
          | none => st1  -- artifact
        let lc := (match l with
          | some c => st2.centerY c
          | none => none).getD 0  -- artifact default: Python raises KeyError
        let rc := (match r with
          | some c => st2.centerY c
          | none => none).getD 0  -- artifact default
        { slotY := updSlot (updSlot st2.slotY g 0 lc) g 1 rc
          centerY := updCenter st2.centerY g ((lc + rc + 1) / 2)
          leafCursor := st2.leafCursor }
termination_by ((structKeys b).filter (fun k => decide (k ∉ visiting))).length
decreasing_by
  · exact filter_visiting_lt (lookupKey_mem_keys h) hv
  · exact filter_visiting_lt (lookupKey_mem_keys h) hv

def emptyLayout : LayoutState := ⟨fun _ _ => none, fun _ => none, 0⟩

def layoutRun (b : BracketStructure) : LayoutState :=
  assign_positions b [] b.final_game emptyLayout

/-! The character canvas and the drawing loop. -/

structure Canvas where
  maxX : Int
  maxY : Int
  cell : Int → Int → Char

def put (cv : Canvas) (x y : Int) (ch : Char) : Canvas :=
  if 0 ≤ x ∧ x < cv.maxX ∧ 0 ≤ y ∧ y < cv.maxY then
    { cv with cell := fun x' y' => if x' = x ∧ y' = y then ch else cv.cell x' y' }
  else cv

/-- Python `range(x1, x2 + 1)` as a list of ints. -/
def intRange (x1 x2 : Int) : List Int :=
  (List.range (x2 + 1 - x1).toNat).map (fun i => x1 + i)

def put_hline (cv : Canvas) (x1 x2 y : Int) (ch : Char) : Canvas :=
  (intRange x1 x2).foldl (fun c x => put c x y ch) cv

def put_text (cv : Canvas) (x y : Int) (text : String) : Canvas :=
  text.data.enum.foldl (fun c ic => put c (x + ic.1) y ic.2) cv

structure Glyphs where
  hChar : Char
  vChar : Char
  topJunc : Char
  bottomJunc : Char
  teeChar : Char

def asciiGlyphs : Glyphs := ⟨'-', '|', '+', '+', '|'⟩

def boxGlyphs : Glyphs := ⟨'─', '│', '╮', '╯', '├'⟩

structure Team where
  id : Int
  name : String
deriving DecidableEq, Repr

/-- `{team.id: team.name for team in teams}` (a later team overwrites an
earlier one with the same id). -/
def teamNamesLookup (teams : List Team) (tid : Int) : Option String :=
  (teams.reverse.find? (fun t => t.id == tid)).map Team.name

def format_team (teams : List Team) (nameWidth : Nat) : Option Int → String
  | none => ""
  | some tid => ((teamNamesLookup teams tid).getD s!"#{tid}").take nameWidth

/-- `sorted(self.structure.keys(), key=lambda g: (game_round(g), g))`. -/
def keyLt (b : BracketStructure) (g1 g2 : Int) : Bool :=
  decide (game_round b g1 < game_round b g2
    ∨ (game_round b g1 = game_round b g2 ∧ g1 < g2))

def insertOrd (b : BracketStructure) (g : Int) : List Int → List Int
  | [] => [g]
  | y :: rest => if keyLt b g y then g :: y :: rest else y :: insertOrd b g rest

def gameOrder (b : BracketStructure) : List Int :=
  (structKeys b).foldr (insertOrd b) []

def slotYI (st : LayoutState) (g : Int) (s : Nat) : Int :=
  ((st.slotY g s).getD 0 : Nat)  -- artifact default: Python raises KeyError

def centerYI (st : LayoutState) (g : Int) : Int :=
  ((st.centerY g).getD 0 : Nat)  -- artifact default

def drawGame (b : BracketStructure) (teams : List Team) (nameWidth : Nat)
    (gl : Glyphs) (st : LayoutState) (cv : Canvas) (gid : Int) : Canvas :=
  let r := game_round b gid
  let labelWidth : Int := (nameWidth : Int) + 1
  let xJunc : Int := labelWidth + r * 12
  let xConnStart : Int := if r = 0 then 0 else xJunc - 11
  let xLabel := xConnStart
  let yTop := slotYI st gid 0
  let yBottom := slotYI st gid 1
  let lt := (gamesGet b gid).1
  let rt := (gamesGet b gid).2
  let cv := if yTop - 1 ≥ 0 then
    put_text cv xLabel (yTop - 1) (format_team teams nameWidth lt) else cv
  let cv := if yBottom - 1 ≥ 0 then
    put_text cv xLabel (yBottom - 1) (format_team teams nameWidth rt) else cv
  let cv := put_hline cv xConnStart (xJunc - 1) yTop gl.hChar
  let cv := put_hline cv xConnStart (xJunc - 1) yBottom gl.hChar
  let cv := put cv xJunc yTop gl.topJunc
  let cv := put cv xJunc yBottom gl.bottomJunc
  -- for y in range(min(y_top, y_bottom) + 1, max(y_top, y_bottom))
  let cv := (intRange (min yTop yBottom + 1) (max yTop yBottom - 1)).foldl
    (fun c y => put c xJunc y gl.vChar) cv
  match parent_by_game b gid with
  | some (pg, side) =>
    let pXJunc : Int := labelWidth + (game_round b pg : Int) * 12
    let pXConnStart := pXJunc - 11
    let targetY := slotYI st pg side
    if targetY = centerYI st gid then
      put_hline (put cv xJunc targetY gl.teeChar) (xJunc + 1) (pXConnStart - 1)
        targetY gl.hChar
    else cv  -- the "no bridge" branch
  | none =>
    if gid = b.final_game then
      put_hline cv (xJunc + 1) (xJunc + 11) (centerYI st gid) gl.hChar
    else cv

def rstripLine (l : List Char) : List Char :=
  (l.reverse.dropWhile Char.isWhitespace).reverse

def renderCanvas (cv : Canvas) : String :=
  let lines := (List.range cv.maxY.toNat).map (fun y =>
    String.mk (rstripLine ((List.range cv.maxX.toNat).map
      (fun x => cv.cell (x : Int) (y : Int)))))
  String.mk (rstripLine (String.intercalate "\n" lines).data)

/-- `to_ascii_bracket`.  `mode` is a plain runtime string: the `Literal`
annotation of the source is a static type hint only, the code tests
`mode == "ascii"` and otherwise uses the box glyphs.  The only raise is the
`name_width` check. -/
def to_ascii_bracket (b : BracketStructure) (teams : List Team)
    (name_width : Int) (mode : String) : Except String String :=
  if name_width ≤ 0 then .error "name_width must be positive."
  else
    let nw : Nat := name_width.toNat
    let maxRound := game_round b b.final_game
    let st := layoutRun b
    let maxY : Int := (st.leafCursor : Int)
    let maxX : Int := (nw : Int) + 1 + (maxRound : Int) * 12 + 12
    let cv0 : Canvas := ⟨maxX, maxY, fun _ _ => ' '⟩
    let gl := if mode = "ascii" then asciiGlyphs else boxGlyphs
    .ok (renderCanvas ((gameOrder b).foldl (drawGame b teams nw gl st) cv0))

/-! Serialization (`to_json_dict` and the pydantic reparse of its output).
Game ids become decimal string keys and feeder pairs become two-element
lists; reparsing coerces the string keys back to ints, rebuilds the tuples
and re-runs `_validate_bracket`. -/

def digitChar' (d : Nat) : Char := Char.ofNat (48 + d)

/-- Model of Python `str(n)` for a natural number. -/
def natToDecimal (n : Nat) : String :=
  if n = 0 then "0" else String.mk ((Nat.digits 10 n).reverse.map digitChar')

/-- Model of Python `str(i)` for an int. -/
def intToDecimal (i : Int) : String :=
  if i < 0 then "-" ++ natToDecimal (-i).toNat else natToDecimal i.toNat

def isDigitChar (c : Char) : Bool := 48 ≤ c.toNat && c.toNat ≤ 57

def decDigitsVal (cs : List Char) : Nat :=
  cs.foldl (fun a c => a * 10 + (c.toNat - 48)) 0

def parseNatStr (cs : List Char) : Option Nat :=
  if cs ≠ [] ∧ cs.all isDigitChar then some (decDigitsVal cs) else none

/-- Model of pydantic's string-to-int key coercion. -/
def parseIntStr (s : String) : Option Int :=
  match s.data with
  | [] => none
  | c :: rest =>
    if c = '-' then (parseNatStr rest).map (fun n => -(n : Int))
    else (parseNatStr (c :: rest)).map (fun n => (n : Int))

structure JsonBracket where
  final_game : Int
  structure' : List (String × List (Option Int))
  games : List (String × List (Option Int))
deriving DecidableEq, Repr

def encodeEntry (it : Int × Slots) : String × List (Option Int) :=
  (intToDecimal it.1, [it.2.1, it.2.2])

/-- `to_json_dict`. -/
def to_json_dict (b : BracketStructure) : JsonBracket :=
  ⟨b.final_game, b.structure'.map encodeEntry, b.games.map encodeEntry⟩

def parseEntry (it : String × List (Option Int)) : Option (Int × Slots) :=
  match it.2 with
  | [a, c] => (parseIntStr it.1).map (fun k => (k, (a, c)))
  | _ => none

/-- Reparse of the serialized record: rebuild the raw value, then re-run the
construction validator exactly as pydantic does on `model_validate`. -/
def parseBracket (j : JsonBracket) : Option BracketStructure :=
  match j.structure'.mapM parseEntry, j.games.mapM parseEntry with
  | some s, some g =>
    match mkBracket ⟨j.final_game, s, g⟩ with
    | .ok b => some b
    | .error _ => none
  | _, _ => none

def roundTrip (b : BracketStructure) : Option BracketStructure :=
  parseBracket (to_json_dict b)

/-- `n` successive serialize-and-reparse trips. -/
def roundTripN : Nat → BracketStructure → Option BracketStructure
  | 0, b => some b
  | n + 1, b => (roundTrip b).bind (roundTripN n)

/-! ### Basic facts about the helpers -/

theorem mem_insertSorted {x a : Int} {l : List Int} :
    a ∈ insertSorted x l ↔ a = x ∨ a ∈ l := by
  induction l with
  | nil => simp [insertSorted]
  | cons y rest ih =>
    rw [insertSorted]
    by_cases h1 : x < y
    · rw [if_pos h1]
      simp [List.mem_cons]
    · rw [if_neg h1]
      by_cases h2 : x = y
      · subst h2
        rw [if_pos rfl]
        simp [List.mem_cons]
      · rw [if_neg h2]
        rw [List.mem_cons, List.mem_cons, ih]
        tauto

theorem sorted_insertSorted {x : Int} {l : List Int} (h : l.Sorted (· < ·)) :
    (insertSorted x l).Sorted (· < ·) := by
  induction l with
  | nil => simp [insertSorted]
  | cons y rest ih =>
    rw [List.sorted_cons] at h
    rw [insertSorted]
    by_cases h1 : x < y
    · rw [if_pos h1, List.sorted_cons]
      refine ⟨?_, by rw [List.sorted_cons]; exact h⟩
      intro b hb
      rcases List.mem_cons.mp hb with rfl | hb
      · exact h1
      · exact h1.trans (h.1 b hb)
    · rw [if_neg h1]
      by_cases h2 : x = y
      · rw [if_pos h2, List.sorted_cons]
        exact h
      · have hyx : y < x := by
          rcases lt_trichotomy x y with h' | h' | h'
          · exact absurd h' h1
          · exact absurd h' h2
          · exact h'
        rw [if_neg h2, List.sorted_cons]
        constructor
        · intro b hb
          rcases mem_insertSorted.mp hb with rfl | hb
          · exact hyx
          · exact h.1 b hb
        · exact ih h.2

theorem mem_sortedSet {a : Int} {l : List Int} : a ∈ sortedSet l ↔ a ∈ l := by
  induction l with
  | nil => simp [sortedSet]
  | cons x rest ih =>
    show a ∈ insertSorted x (sortedSet rest) ↔ _
    rw [mem_insertSorted, ih, List.mem_cons]

theorem sortedSet_sorted (l : List Int) : (sortedSet l).Sorted (· < ·) := by
  induction l with
  | nil => simp [sortedSet]
  | cons x rest ih => exact sorted_insertSorted ih

theorem sortedSet_eq_nil_iff {l : List Int} : sortedSet l = [] ↔ l = [] := by
  constructor
  · intro h
    cases l with
    | nil => rfl
    | cons x rest =>
      have : x ∈ sortedSet (x :: rest) := mem_sortedSet.mpr (List.mem_cons_self x rest)
      rw [h] at this
      simp at this
  · rintro rfl
    rfl

theorem lookupKey_isSome_iff {k : Int} {l : List (Int × Slots)} :
    (lookupKey k l).isSome ↔ k ∈ l.map Prod.fst := by
  induction l with
  | nil => simp [lookupKey]
  | cons hd tl ih =>
    rw [lookupKey]
    by_cases h : k = hd.1
    · simp [h]
    · simp only [if_neg h, ih, List.map_cons, List.mem_cons]
      exact ⟨Or.inr, fun hc => hc.resolve_left h⟩

theorem lookupKey_eq_none_iff {k : Int} {l : List (Int × Slots)} :
    lookupKey k l = none ↔ k ∉ l.map Prod.fst := by
  rw [← lookupKey_isSome_iff, Option.not_isSome_iff_eq_none]

theorem mem_of_lookupKey {k : Int} {l : List (Int × Slots)} {v : Slots}
    (h : lookupKey k l = some v) : (k, v) ∈ l := by
  induction l with
  | nil => simp [lookupKey] at h
  | cons hd tl ih =>
    rw [lookupKey] at h
    split at h
    · rename_i heq
      cases h
      rcases hd with ⟨k', v'⟩
      cases heq
      exact List.mem_cons_self _ _
    · exact List.mem_cons_of_mem _ (ih h)

theorem lookupKey_of_mem_nodup {k : Int} {l : List (Int × Slots)} {v : Slots}
    (hn : (l.map Prod.fst).Nodup) (hm : (k, v) ∈ l) : lookupKey k l = some v := by
  induction l with
  | nil => simp at hm
  | cons hd tl ih =>
    rw [List.map_cons, List.nodup_cons] at hn
    rcases List.mem_cons.mp hm with rfl | hm
    · rw [lookupKey]
      simp
    · rw [lookupKey]
      have hk : k ≠ hd.1 := by
        intro h
        exact hn.1 (h ▸ List.mem_map_of_mem Prod.fst hm)
      rw [if_neg hk]
      exact ih hn.2 hm

/-! ### Unfolding equations for the recursive functions -/

def dfsChild (b : BracketStructure) (v : List Int) (oc : Option Int)
    (acc : DfsAcc) : DfsAcc :=
  match oc with
  | some c => if (lookupKey c b.structure').isSome then dfs b v c acc else acc
  | none => acc

theorem dfs_cycle {b : BracketStructure} {v : List Int} {n : Int} {acc : DfsAcc}
    (hv : n ∈ v) :
    dfs b v n acc = ⟨acc.visited, acc.errors ++ [cycleMsg n]⟩ := by
  rw [dfs, dif_pos hv]

theorem dfs_skip {b : BracketStructure} {v : List Int} {n : Int} {acc : DfsAcc}
    (hv : n ∉ v) (hm : n ∈ acc.visited) :
    dfs b v n acc = acc := by
  rw [dfs, dif_neg hv, if_pos hm]

theorem dfs_nokey {b : BracketStructure} {v : List Int} {n : Int} {acc : DfsAcc}
    (hv : n ∉ v) (hm : n ∉ acc.visited)
    (h : lookupKey n b.structure' = none) : dfs b v n acc = acc := by
  rw [dfs, dif_neg hv, if_neg hm]
  split
  · rfl
  · rename_i l r heq
    rw [h] at heq
    cases heq

theorem dfs_main {b : BracketStructure} {v : List Int} {n : Int} {acc : DfsAcc}
    {l r : Option Int} (hv : n ∉ v) (hm : n ∉ acc.visited)
    (h : lookupKey n b.structure' = some (l, r)) :
    dfs b v n acc =
      ⟨(dfsChild b (n :: v) r (dfsChild b (n :: v) l acc)).visited ++ [n],
       (dfsChild b (n :: v) r (dfsChild b (n :: v) l acc)).errors⟩ := by
  rw [dfs, dif_neg hv, if_neg hm]
  split
  · rename_i heq
    rw [h] at heq
    cases heq
  · rename_i l' r' heq
    rw [h] at heq
    injection heq with heq
    injection heq with h1 h2
    subst h1
    subst h2
    cases l <;> cases r <;> rfl

def pwSide (b : BracketStructure) (v : List Int) (team feeder : Option Int) :
    List Int :=
  match team with
  | some t => [t]
  | none =>
    match feeder with
    | some c => pwAux b v c
    | none => []

theorem pwAux_cycle {b : BracketStructure} {v : List Int} {g : Int}
    (hv : g ∈ v) : pwAux b v g = [] := by
  rw [pwAux, dif_pos hv]

theorem pwAux_nokey {b : BracketStructure} {v : List Int} {g : Int}
    (hv : g ∉ v) (h : lookupKey g b.structure' = none) : pwAux b v g = [] := by
  rw [pwAux, dif_neg hv]
  split
  · rfl
  · rename_i l r heq
    rw [h] at heq
    cases heq

theorem pwAux_leaf {b : BracketStructure} {v : List Int} {g : Int}
    (hv : g ∉ v) (h : lookupKey g b.structure' = some (none, none)) :
    pwAux b v g = optTeamList (gamesGet b g).1 ++ optTeamList (gamesGet b g).2 := by
  rw [pwAux, dif_neg hv]
  split
  · rename_i heq
    rw [h] at heq
    cases heq
  · rename_i l r heq
    rw [h] at heq
    injection heq with heq
    injection heq with h1 h2
    subst h1
    subst h2
    rfl

theorem pwAux_internal {b : BracketStructure} {v : List Int} {g : Int}
    {l r : Option Int} (hv : g ∉ v) (h : lookupKey g b.structure' = some (l, r))
    (hnn : ¬(l = none ∧ r = none)) :
    pwAux b v g =
      pwSide b (g :: v) (gamesGet b g).1 l ++ pwSide b (g :: v) (gamesGet b g).2 r := by
  rw [pwAux, dif_neg hv]
  split
  · rename_i heq
    rw [h] at heq
    cases heq
  · rename_i l' r' heq
    rw [h] at heq
    injection heq with heq
    injection heq with h1 h2
    subst h1
    subst h2
    cases l <;> cases r
    · exact absurd ⟨rfl, rfl⟩ hnn
    · rfl
    · rfl
    · rfl

def roundSide (b : BracketStructure) (v : List Int) (oc : Option Int) : Nat :=
  match oc with
  | some c => roundAux b v c
  | none => 0

theorem roundAux_cycle {b : BracketStructure} {v : List Int} {g : Int}
    (hv : g ∈ v) : roundAux b v g = 0 := by
  rw [roundAux, dif_pos hv]

theorem roundAux_nokey {b : BracketStructure} {v : List Int} {g : Int}
    (hv : g ∉ v) (h : lookupKey g b.structure' = none) : roundAux b v g = 0 := by
  rw [roundAux, dif_neg hv]
  split
  · rfl
  · rename_i l r heq
    rw [h] at heq
    cases heq

theorem roundAux_leaf {b : BracketStructure} {v : List Int} {g : Int}
    (hv : g ∉ v) (h : lookupKey g b.structure' = some (none, none)) :
    roundAux b v g = 0 := by
  rw [roundAux, dif_neg hv]
  split
  · rfl
  · rename_i l r heq
    rw [h] at heq
    injection heq with heq
    injection heq with h1 h2
    subst h1
    subst h2
    rfl

theorem roundAux_internal {b : BracketStructure} {v : List Int} {g : Int}
    {l r : Option Int} (hv : g ∉ v) (h : lookupKey g b.structure' = some (l, r))
    (hnn : ¬(l = none ∧ r = none)) :
    roundAux b v g =
      1 + max (roundSide b (g :: v) l) (roundSide b (g :: v) r) := by
  rw [roundAux, dif_neg hv]
  split
  · rename_i heq
    rw [h] at heq
    cases heq
  · rename_i l' r' heq
    rw [h] at heq
    injection heq with heq
    injection heq with h1 h2
    subst h1
    subst h2
    cases l <;> cases r
    · exact absurd ⟨rfl, rfl⟩ hnn
    · rfl
    · rfl
    · rfl

def apChild (b : BracketStructure) (v : List Int) (oc : Option Int)
    (st : LayoutState) : LayoutState :=
  match oc with
  | some c => assign_positions b v c st
  | none => st

def centerOf (st : LayoutState) (oc : Option Int) : Nat :=
  (match oc with
    | some c => st.centerY c
    | none => none).getD 0

theorem assign_cycle {b : BracketStructure} {v : List Int} {g : Int}
    {st : LayoutState} (hv : g ∈ v) : assign_positions b v g st = st := by
  rw [assign_positions, dif_pos hv]

theorem assign_nokey {b : BracketStructure} {v : List Int} {g : Int}
    {st : LayoutState} (hv : g ∉ v) (h : lookupKey g b.structure' = none) :
    assign_positions b v g st = st := by
  rw [assign_positions, dif_neg hv]
  split
  · rfl
  · rename_i l r heq
    rw [h] at heq
    cases heq

theorem assign_leaf {b : BracketStructure} {v : List Int} {g : Int}
    {st : LayoutState} (hv : g ∉ v)
    (h : lookupKey g b.structure' = some (none, none)) :
    assign_positions b v g st =
      ⟨updSlot (updSlot st.slotY g 0 (st.leafCursor + 1)) g 1 (st.leafCursor + 3),
       updCenter st.centerY g (st.leafCursor + 2),
       st.leafCursor + 5⟩ := by
  rw [assign_positions, dif_neg hv]
  split
  · rename_i heq
    rw [h] at heq
    cases heq
  · rename_i l r heq
    rw [h] at heq
    injection heq with heq
    injection heq with h1 h2
    subst h1
    subst h2
    rfl

theorem assign_internal {b : BracketStructure} {v : List Int} {g : Int}
    {l r : Option Int} {st : LayoutState} (hv : g ∉ v)
    (h : lookupKey g b.structure' = some (l, r)) (hnn : ¬(l = none ∧ r = none)) :
    assign_positions b v g st =
      let st2 := apChild b (g :: v) r (apChild b (g :: v) l st)
      ⟨updSlot (updSlot st2.slotY g 0 (centerOf st2 l)) g 1 (centerOf st2 r),
       updCenter st2.centerY g ((centerOf st2 l + centerOf st2 r + 1) / 2),
       st2.leafCursor⟩ := by
  rw [assign_positions, dif_neg hv]
  split
  · rename_i heq
    rw [h] at heq
    cases heq
  · rename_i l' r' heq
    rw [h] at heq
    injection heq with heq
    injection heq with h1 h2
    subst h1
    subst h2
    cases l <;> cases r
    · exact absurd ⟨rfl, rfl⟩ hnn
    · rfl
    · rfl
    · rfl

/-! ### Specification-side notions: reference counts, edges, subtrees -/

/-- Reference count of `g` over the feeder slots of all *other* games
(the spec's fan-in: "referenced as a feeder by exactly one other game"). -/
def refCountOthers (b : BracketStructure) (g : Int) : Nat :=
  (b.structure'.map (fun it =>
    if it.1 = g then 0
    else (if it.2.1 = some g then 1 else 0)
      + (if it.2.2 = some g then 1 else 0))).sum

/-- All `(parent, slot)` pairs whose feeder slot holds `m`, in item order
(left slot before right slot). -/
def parentsList (b : BracketStructure) (m : Int) : List (Int × Nat) :=
  (b.structure'.map (fun it =>
    (if it.2.1 = some m then [(it.1, 0)] else [])
      ++ (if it.2.2 = some m then [(it.1, 1)] else []))).flatten

/-- The feeder children of `p` that are themselves structure keys: exactly
the nodes the validator's `dfs` descends into from `p`. -/
def keyedChildren (b : BracketStructure) (p : Int) : List Int :=
  match lookupKey p b.structure' with
  | some (l, r) => (l.toList ++ r.toList).filter (fun c => decide (c ∈ structKeys b))
  | none => []

def childE (b : BracketStructure) (p c : Int) : Prop := c ∈ keyedChildren b p

instance (b : BracketStructure) (p c : Int) : Decidable (childE b p c) := by
  unfold childE
  infer_instance

/-- Accessibility of the keyed-feeder relation below `g`: every descending
feeder chain from `g` is finite. -/
def GoodAt (b : BracketStructure) (g : Int) : Prop :=
  Acc (fun c p => childE b p c) g

/-- `n` lies in the feeder subtree of `g` (following keyed feeder edges). -/
def InSub (b : BracketStructure) : Int → Int → Prop :=
  Relation.ReflTransGen (childE b)

def IsLeafAt (b : BracketStructure) (g : Int) : Prop :=
  lookupKey g b.structure' = some (none, none)

def IsInternalAt (b : BracketStructure) (g lc rc : Int) : Prop :=
  lookupKey g b.structure' = some (some lc, some rc)

/-- There is a feeder chain of `n` edges from `g` down to some leaf. -/
inductive LeafDepth (b : BracketStructure) : Int → Nat → Prop
  | leaf {g} : IsLeafAt b g → LeafDepth b g 0
  | stepL {g lc rc n} : IsInternalAt b g lc rc → LeafDepth b lc n →
      LeafDepth b g (n + 1)
  | stepR {g lc rc n} : IsInternalAt b g lc rc → LeafDepth b rc n →
      LeafDepth b g (n + 1)

/-- The leaves of the subtree of `g` in the order the layout traversal
reaches them. -/
def leavesUnder (b : BracketStructure) (visiting : List Int) (g : Int) :
    List Int :=
  if hv : g ∈ visiting then []
  else
    match h : lookupKey g b.structure' with
    | none => []
    | some (l, r) =>
      match l, r with
      | none, none => [g]
      | l, r =>
        (match l with
          | some c => leavesUnder b (g :: visiting) c
          | none => [])
          ++ (match r with
            | some c => leavesUnder b (g :: visiting) c
            | none => [])
termination_by ((structKeys b).filter (fun k => decide (k ∉ visiting))).length
decreasing_by
  · exact filter_visiting_lt (lookupKey_mem_keys h) hv
  · exact filter_visiting_lt (lookupKey_mem_keys h) hv

def leavesSide (b : BracketStructure) (v : List Int) (oc : Option Int) :
    List Int :=
  match oc with
  | some c => leavesUnder b v c
  | none => []

theorem leavesUnder_cycle {b : BracketStructure} {v : List Int} {g : Int}
    (hv : g ∈ v) : leavesUnder b v g = [] := by
  rw [leavesUnder, dif_pos hv]

theorem leavesUnder_nokey {b : BracketStructure} {v : List Int} {g : Int}
    (hv : g ∉ v) (h : lookupKey g b.structure' = none) :
    leavesUnder b v g = [] := by
  rw [leavesUnder, dif_neg hv]
  split
  · rfl
  · rename_i l r heq
    rw [h] at heq
    cases heq

theorem leavesUnder_leaf {b : BracketStructure} {v : List Int} {g : Int}
    (hv : g ∉ v) (h : lookupKey g b.structure' = some (none, none)) :
    leavesUnder b v g = [g] := by
  rw [leavesUnder, dif_neg hv]
  split
  · rename_i heq
    rw [h] at heq
    cases heq
  · rename_i l r heq
    rw [h] at heq
    injection heq with heq
    injection heq with h1 h2
    subst h1
    subst h2
    rfl

theorem leavesUnder_internal {b : BracketStructure} {v : List Int} {g : Int}
    {l r : Option Int} (hv : g ∉ v) (h : lookupKey g b.structure' = some (l, r))
    (hnn : ¬(l = none ∧ r = none)) :
    leavesUnder b v g = leavesSide b (g :: v) l ++ leavesSide b (g :: v) r := by
  rw [leavesUnder, dif_neg hv]
  split
  · rename_i heq
    rw [h] at heq
    cases heq
  · rename_i l' r' heq
    rw [h] at heq
    injection heq with heq
    injection heq with h1 h2
    subst h1
    subst h2
    cases l <;> cases r
    · exact absurd ⟨rfl, rfl⟩ hnn
    · rfl
    · rfl
    · rfl

/-! ### Acyclicity machinery -/

theorem acc_not_self {α : Type} {r : α → α → Prop} {a : α} (h : Acc r a) :
    ¬ r a a := by
  induction h with
  | intro x _ ih => exact fun hxx => ih x hxx hxx

/-- A `GoodAt` node is not a strict descendant of itself. -/
theorem goodAt_no_cycle {b : BracketStructure} {g c : Int}
    (hg : GoodAt b g) (hc : childE b g c) (hs : InSub b c g) : False := by
  have hrev : Relation.ReflTransGen (fun x y => childE b y x) g c :=
    (Relation.reflTransGen_swap (r := childE b) (a := g) (b := c)).mpr hs
  have htg : Relation.TransGen (fun x y => childE b y x) g g :=
    Relation.TransGen.tail' hrev hc
  exact acc_not_self (Acc.transGen hg) htg

/-! ### Structural facts about `dfs` -/

theorem dfs_visited_prefix (b : BracketStructure) (v : List Int) (n : Int)
    (acc : DfsAcc) : ∃ t, (dfs b v n acc).visited = acc.visited ++ t := by
  induction v, n, acc using dfs.induct b with
  | case1 v n acc hv => exact ⟨[], by rw [dfs_cycle hv]; simp⟩
  | case2 v n acc hv hm => exact ⟨[], by rw [dfs_skip hv hm]; simp⟩
  | case3 v n acc hv hm h => exact ⟨[], by rw [dfs_nokey hv hm h]; simp⟩
  | case4 v n acc hv hm l r h acc1 ihl ihr =>
    have hacc1 : acc1 = dfsChild b (n :: v) l acc := by
      cases l <;> rfl
    rw [dfs_main hv hm h]
    have s1 : ∃ t, (dfsChild b (n :: v) l acc).visited = acc.visited ++ t := by
      cases l with
      | none => exact ⟨[], by simp [dfsChild]⟩
      | some c =>
        simp only [dfsChild]
        by_cases hc : (lookupKey c b.structure').isSome
        · rw [if_pos hc]
          exact ihl c h
        · rw [if_neg hc]
          exact ⟨[], by simp⟩
    have s2 : ∃ t, (dfsChild b (n :: v) r (dfsChild b (n :: v) l acc)).visited
        = (dfsChild b (n :: v) l acc).visited ++ t := by
      rw [← hacc1]
      cases r with
      | none => exact ⟨[], by simp [dfsChild]⟩
      | some c =>
        simp only [dfsChild]
        by_cases hc : (lookupKey c b.structure').isSome
        · rw [if_pos hc]
          exact ihr c h
        · rw [if_neg hc]
          exact ⟨[], by simp⟩
    obtain ⟨t1, ht1⟩ := s1
    obtain ⟨t2, ht2⟩ := s2
    exact ⟨t1 ++ t2 ++ [n], by simp [ht2, ht1]⟩

theorem dfs_errors_prefix (b : BracketStructure) (v : List Int) (n : Int)
    (acc : DfsAcc) : ∃ t, (dfs b v n acc).errors = acc.errors ++ t := by
  induction v, n, acc using dfs.induct b with
  | case1 v n acc hv => exact ⟨[cycleMsg n], by rw [dfs_cycle hv]⟩
  | case2 v n acc hv hm => exact ⟨[], by rw [dfs_skip hv hm]; simp⟩
  | case3 v n acc hv hm h => exact ⟨[], by rw [dfs_nokey hv hm h]; simp⟩
  | case4 v n acc hv hm l r h acc1 ihl ihr =>
    have hacc1 : acc1 = dfsChild b (n :: v) l acc := by
      cases l <;> rfl
    rw [dfs_main hv hm h]
    have s1 : ∃ t, (dfsChild b (n :: v) l acc).errors = acc.errors ++ t := by
      cases l with
      | none => exact ⟨[], by simp [dfsChild]⟩
      | some c =>
        simp only [dfsChild]
        by_cases hc : (lookupKey c b.structure').isSome
        · rw [if_pos hc]
          exact ihl c h
        · rw [if_neg hc]
          exact ⟨[], by simp⟩
    have s2 : ∃ t, (dfsChild b (n :: v) r (dfsChild b (n :: v) l acc)).errors
        = (dfsChild b (n :: v) l acc).errors ++ t := by
      rw [← hacc1]
      cases r with
      | none => exact ⟨[], by simp [dfsChild]⟩
      | some c =>
        simp only [dfsChild]
        by_cases hc : (lookupKey c b.structure').isSome
        · rw [if_pos hc]
          exact ihr c h
        · rw [if_neg hc]
          exact ⟨[], by simp⟩
    obtain ⟨t1, ht1⟩ := s1
    obtain ⟨t2, ht2⟩ := s2
    exact ⟨t1 ++ t2, by simp [ht2, ht1]⟩

theorem dfs_visited_new (b : BracketStructure) (v : List Int) (n : Int)
    (acc : DfsAcc) :
    ∀ m ∈ (dfs b v n acc).visited,
      m ∈ acc.visited ∨ (m ∉ v ∧ m ∈ structKeys b) := by
  induction v, n, acc using dfs.induct b with
  | case1 v n acc hv =>
    rw [dfs_cycle hv]
    exact fun m hm => Or.inl hm
  | case2 v n acc hv hm =>
    rw [dfs_skip hv hm]
    exact fun m h' => Or.inl h'
  | case3 v n acc hv hm h =>
    rw [dfs_nokey hv hm h]
    exact fun m h' => Or.inl h'
  | case4 v n acc hv hm l r h acc1 ihl ihr =>
    have hacc1 : acc1 = dfsChild b (n :: v) l acc := by cases l <;> rfl
    rw [dfs_main hv hm h]
    have s1 : ∀ m ∈ (dfsChild b (n :: v) l acc).visited,
        m ∈ acc.visited ∨ (m ∉ n :: v ∧ m ∈ structKeys b) := by
      cases l with
      | none => exact fun m hm' => Or.inl hm'
      | some c =>
        simp only [dfsChild]
        by_cases hc : (lookupKey c b.structure').isSome
        · rw [if_pos hc]
          exact ihl c h
        · rw [if_neg hc]
          exact fun m hm' => Or.inl hm'
    have s2 : ∀ m ∈ (dfsChild b (n :: v) r (dfsChild b (n :: v) l acc)).visited,
        m ∈ (dfsChild b (n :: v) l acc).visited
          ∨ (m ∉ n :: v ∧ m ∈ structKeys b) := by
      rw [← hacc1]
      cases r with
      | none => exact fun m hm' => Or.inl hm'
      | some c =>
        simp only [dfsChild]
        by_cases hc : (lookupKey c b.structure').isSome
        · rw [if_pos hc]
          exact ihr c h
        · rw [if_neg hc]
          exact fun m hm' => Or.inl hm'
    intro m hm'
    simp only [List.mem_append, List.mem_singleton] at hm'
    rcases hm' with hm' | rfl
    · rcases s2 m hm' with hm'' | ⟨hnv, hk⟩
      · rcases s1 m hm'' with hm''' | ⟨hnv, hk⟩
        · exact Or.inl hm'''
        · exact Or.inr ⟨fun hx => hnv (List.mem_cons_of_mem _ hx), hk⟩
      · exact Or.inr ⟨fun hx => hnv (List.mem_cons_of_mem _ hx), hk⟩
    · exact Or.inr ⟨hv, lookupKey_mem_keys h⟩

theorem dfs_mem_visited (b : BracketStructure) {v : List Int} {n : Int}
    (acc : DfsAcc) (hv : n ∉ v) (hk : (lookupKey n b.structure').isSome) :
    n ∈ (dfs b v n acc).visited := by
  by_cases hm : n ∈ acc.visited
  · obtain ⟨t, ht⟩ := dfs_visited_prefix b v n acc
    rw [ht]
    exact List.mem_append_left _ hm
  · obtain ⟨⟨l, r⟩, hp⟩ := Option.isSome_iff_exists.mp hk
    rw [dfs_main hv hm hp]
    simp

theorem dfsChild_visited_prefix (b : BracketStructure) (v : List Int)
    (oc : Option Int) (acc : DfsAcc) :
    ∃ t, (dfsChild b v oc acc).visited = acc.visited ++ t := by
  cases oc with
  | none => exact ⟨[], by simp [dfsChild]⟩
  | some c =>
    simp only [dfsChild]
    by_cases hc : (lookupKey c b.structure').isSome
    · rw [if_pos hc]
      exact dfs_visited_prefix b v c acc
    · rw [if_neg hc]
      exact ⟨[], by simp⟩

theorem dfsChild_errors_prefix (b : BracketStructure) (v : List Int)
    (oc : Option Int) (acc : DfsAcc) :
    ∃ t, (dfsChild b v oc acc).errors = acc.errors ++ t := by
  cases oc with
  | none => exact ⟨[], by simp [dfsChild]⟩
  | some c =>
    simp only [dfsChild]
    by_cases hc : (lookupKey c b.structure').isSome
    · rw [if_pos hc]
      exact dfs_errors_prefix b v c acc
    · rw [if_neg hc]
      exact ⟨[], by simp⟩

theorem dfsChild_visited_new (b : BracketStructure) (v : List Int)
    (oc : Option Int) (acc : DfsAcc) :
    ∀ m ∈ (dfsChild b v oc acc).visited,
      m ∈ acc.visited ∨ (m ∉ v ∧ m ∈ structKeys b) := by
  cases oc with
  | none => exact fun m hm => Or.inl hm
  | some c =>
    simp only [dfsChild]
    by_cases hc : (lookupKey c b.structure').isSome
    · rw [if_pos hc]
      exact dfs_visited_new b v c acc
    · rw [if_neg hc]
      exact fun m hm => Or.inl hm

theorem dfs_visited_nodup (b : BracketStructure) (v : List Int) (n : Int)
    (acc : DfsAcc) (hn : acc.visited.Nodup) :
    (dfs b v n acc).visited.Nodup := by
  induction v, n, acc using dfs.induct b with
  | case1 v n acc hv =>
    rw [dfs_cycle hv]
    exact hn
  | case2 v n acc hv hm =>
    rw [dfs_skip hv hm]
    exact hn
  | case3 v n acc hv hm h =>
    rw [dfs_nokey hv hm h]
    exact hn
  | case4 v n acc hv hm l r h acc1 ihl ihr =>
    have hacc1 : acc1 = dfsChild b (n :: v) l acc := by cases l <;> rfl
    rw [dfs_main hv hm h]
    have n1 : (dfsChild b (n :: v) l acc).visited.Nodup := by
      cases l with
      | none => exact hn
      | some c =>
        simp only [dfsChild]
        by_cases hc : (lookupKey c b.structure').isSome
        · rw [if_pos hc]
          exact ihl c h hn
        · rw [if_neg hc]
          exact hn
    have n1' : acc1.visited.Nodup := by
      rw [hacc1]
      exact n1
    have n2 : (dfsChild b (n :: v) r (dfsChild b (n :: v) l acc)).visited.Nodup := by
      rw [← hacc1]
      cases r with
      | none => exact n1'
      | some c =>
        simp only [dfsChild]
        by_cases hc : (lookupKey c b.structure').isSome
        · rw [if_pos hc]
          exact ihr c h n1'
        · rw [if_neg hc]
          exact n1'
    have hnotin : n ∉ (dfsChild b (n :: v) r (dfsChild b (n :: v) l acc)).visited := by
      intro hmem
      rcases dfsChild_visited_new b (n :: v) r _ n hmem with hmem1 | ⟨hnv, _⟩
      · rcases dfsChild_visited_new b (n :: v) l _ n hmem1 with hmem2 | ⟨hnv, _⟩
        · exact hm hmem2
        · exact hnv (List.mem_cons_self _ _)
      · exact hnv (List.mem_cons_self _ _)
    simpa [List.nodup_append] using ⟨n2, hnotin⟩

/-- Finish-order closure: every member's keyed feeder children occur strictly
earlier in the list. -/
def ClosedList (b : BracketStructure) (vl : List Int) : Prop :=
  ∀ p m s, vl = p ++ m :: s → ∀ c, childE b m c → c ∈ p

theorem append_singleton_split {α : Type} {vl p s : List α} {m x : α}
    (h : vl ++ [x] = p ++ m :: s) :
    (s = [] ∧ p = vl ∧ m = x) ∨ ∃ s', s = s' ++ [x] ∧ vl = p ++ m :: s' := by
  rcases List.eq_nil_or_concat s with rfl | ⟨s', y, rfl⟩
  · left
    have h2 := List.append_inj' h (by simp)
    refine ⟨rfl, h2.1.symm, ?_⟩
    have h3 := h2.2
    injection h3 with h4
    exact h4.symm
  · right
    rw [List.concat_eq_append] at h ⊢
    have h' : vl ++ [x] = (p ++ m :: s') ++ [y] := by
      rw [h]
      simp
    have h2 := List.append_inj' h' (by simp)
    have h3 := h2.2
    injection h3 with h4
    subst h4
    exact ⟨s', rfl, h2.1⟩

theorem childE_cases {b : BracketStructure} {n c : Int} {l r : Option Int}
    (h : lookupKey n b.structure' = some (l, r)) (hc : childE b n c) :
    (l = some c ∨ r = some c) ∧ c ∈ structKeys b := by
  unfold childE keyedChildren at hc
  rw [h] at hc
  rw [List.mem_filter] at hc
  refine ⟨?_, by simpa using hc.2⟩
  rcases List.mem_append.mp hc.1 with h' | h'
  · left
    cases l <;> simp_all
  · right
    cases r <;> simp_all

theorem dfs_closed (b : BracketStructure) (v : List Int) (n : Int) (acc : DfsAcc)
    (hC : ClosedList b acc.visited)
    (hE : (dfs b v n acc).errors = acc.errors) :
    ClosedList b (dfs b v n acc).visited := by
  induction v, n, acc using dfs.induct b with
  | case1 v n acc hv =>
    rw [dfs_cycle hv] at hE
    exact absurd hE (by simp)
  | case2 v n acc hv hm =>
    rw [dfs_skip hv hm]
    exact hC
  | case3 v n acc hv hm h =>
    rw [dfs_nokey hv hm h]
    exact hC
  | case4 v n acc hv hm l r h acc1 ihl ihr =>
    have hacc1 : acc1 = dfsChild b (n :: v) l acc := by cases l <;> rfl
    rw [dfs_main hv hm h] at hE ⊢
    obtain ⟨t1, ht1⟩ := dfsChild_errors_prefix b (n :: v) l acc
    obtain ⟨t2, ht2⟩ := dfsChild_errors_prefix b (n :: v) r (dfsChild b (n :: v) l acc)
    have hlen : t1.length + t2.length = 0 := by
      have hE' : acc.errors ++ (t1 ++ t2) = acc.errors := by
        rw [← List.append_assoc, ← ht1, ← ht2]
        exact hE
      have := congrArg List.length hE'
      rw [List.length_append, List.length_append] at this
      omega
    have hE1 : (dfsChild b (n :: v) l acc).errors = acc.errors := by
      rw [ht1, List.eq_nil_of_length_eq_zero (by omega : t1.length = 0)]
      simp
    have hE2 : (dfsChild b (n :: v) r (dfsChild b (n :: v) l acc)).errors
        = (dfsChild b (n :: v) l acc).errors := by
      rw [ht2, List.eq_nil_of_length_eq_zero (by omega : t2.length = 0)]
      simp
    have hC1 : ClosedList b (dfsChild b (n :: v) l acc).visited := by
      cases l with
      | none => exact hC
      | some c =>
        simp only [dfsChild] at hE1 ⊢
        by_cases hc : (lookupKey c b.structure').isSome
        · rw [if_pos hc] at hE1 ⊢
          exact ihl c h hC hE1
        · rw [if_neg hc]
          exact hC
    have hC1' : ClosedList b acc1.visited := by
      rw [hacc1]
      exact hC1
    have hE2' : (dfsChild b (n :: v) r acc1).errors = acc1.errors := by
      rw [hacc1]
      exact hE2
    have hC2 : ClosedList b (dfsChild b (n :: v) r (dfsChild b (n :: v) l acc)).visited := by
      rw [← hacc1]
      cases r with
      | none => exact hC1'
      | some c =>
        simp only [dfsChild] at hE2' ⊢
        by_cases hc : (lookupKey c b.structure').isSome
        · rw [if_pos hc] at hE2' ⊢
          exact ihr c h hC1' hE2'
        · rw [if_neg hc]
          exact hC1'
    intro p m s hsplit c hc
    rcases append_singleton_split hsplit with ⟨rfl, rfl, hmn⟩ | ⟨s', rfl, hvl⟩
    · -- the last element is `n`; its keyed children were visited by the two
      -- child calls, with no error, hence lie in the preceding visited list
      rw [hmn] at hc
      obtain ⟨hside, hkey⟩ := childE_cases h hc
      have hcsome : (lookupKey c b.structure').isSome :=
        lookupKey_isSome_iff.mpr hkey
      rcases hside with rfl | rfl
      · -- left child
      -- the left stage really ran dfs on `c`
        have hrun : dfsChild b (n :: v) (some c) acc = dfs b (n :: v) c acc := by
          simp only [dfsChild]
          rw [if_pos hcsome]
        have hcnv : c ∉ n :: v := by
          intro hmem
          have : (dfs b (n :: v) c acc).errors = acc.errors := by
            rw [← hrun]
            exact hE1
          rw [dfs_cycle hmem] at this
          have := congrArg List.length this
          simp at this
        have hmem1 : c ∈ (dfsChild b (n :: v) (some c) acc).visited := by
          rw [hrun]
          exact dfs_mem_visited b acc hcnv hcsome
        obtain ⟨t, ht⟩ := dfsChild_visited_prefix b (n :: v) r
          (dfsChild b (n :: v) (some c) acc)
        rw [ht]
        exact List.mem_append_left _ hmem1
      · -- right child
        have hrun : dfsChild b (n :: v) (some c) (dfsChild b (n :: v) l acc)
            = dfs b (n :: v) c (dfsChild b (n :: v) l acc) := by
          simp only [dfsChild]
          rw [if_pos hcsome]
        have hcnv : c ∉ n :: v := by
          intro hmem
          have hx : (dfs b (n :: v) c (dfsChild b (n :: v) l acc)).errors
              = (dfsChild b (n :: v) l acc).errors := by
            rw [← hrun]
            exact hE2
          rw [dfs_cycle hmem] at hx
          have := congrArg List.length hx
          simp at this
        rw [hrun]
        exact dfs_mem_visited b _ hcnv hcsome
    · exact hC2 p m s' hvl c hc

theorem pwAux_nil_of_nokey {b : BracketStructure} {v : List Int} {c : Int}
    (h : lookupKey c b.structure' = none) : pwAux b v c = [] := by
  by_cases hv : c ∈ v
  · exact pwAux_cycle hv
  · exact pwAux_nokey hv h

theorem roundAux_zero_of_nokey {b : BracketStructure} {v : List Int} {c : Int}
    (h : lookupKey c b.structure' = none) : roundAux b v c = 0 := by
  by_cases hv : c ∈ v
  · exact roundAux_cycle hv
  · exact roundAux_nokey hv h

theorem leavesUnder_nil_of_nokey {b : BracketStructure} {v : List Int} {c : Int}
    (h : lookupKey c b.structure' = none) : leavesUnder b v c = [] := by
  by_cases hv : c ∈ v
  · exact leavesUnder_cycle hv
  · exact leavesUnder_nokey hv h

theorem childE_intro {b : BracketStructure} {g c : Int} {l r : Option Int}
    (h : lookupKey g b.structure' = some (l, r))
    (hside : l = some c ∨ r = some c) (hk : c ∈ structKeys b) : childE b g c := by
  unfold childE keyedChildren
  rw [h, List.mem_filter]
  refine ⟨?_, by simpa using hk⟩
  rcases hside with rfl | rfl
  · exact List.mem_append_left _ (by simp)
  · exact List.mem_append_right _ (by simp)

theorem goodAt_of_nokey {b : BracketStructure} {g : Int}
    (h : lookupKey g b.structure' = none) : GoodAt b g := by
  constructor
  intro c hc
  unfold childE keyedChildren at hc
  rw [h] at hc
  simp at hc

theorem pwAux_congr {b : BracketStructure} {g : Int} (hg : GoodAt b g) :
    ∀ v₁ v₂ : List Int,
      (∀ m, InSub b g m → m ∉ v₁) → (∀ m, InSub b g m → m ∉ v₂) →
      pwAux b v₁ g = pwAux b v₂ g := by
  induction hg with
  | intro g hacc ih =>
    intro v₁ v₂ h1 h2
    have hg1 : g ∉ v₁ := h1 g Relation.ReflTransGen.refl
    have hg2 : g ∉ v₂ := h2 g Relation.ReflTransGen.refl
    cases hl : lookupKey g b.structure' with
    | none => rw [pwAux_nokey hg1 hl, pwAux_nokey hg2 hl]
    | some p =>
      rcases p with ⟨l, r⟩
      by_cases hnn : l = none ∧ r = none
      · obtain ⟨rfl, rfl⟩ := hnn
        rw [pwAux_leaf hg1 hl, pwAux_leaf hg2 hl]
      · rw [pwAux_internal hg1 hl hnn, pwAux_internal hg2 hl hnn]
        have side : ∀ (team : Option Int) (oc : Option Int),
            (oc = l ∨ oc = r) →
            pwSide b (g :: v₁) team oc = pwSide b (g :: v₂) team oc := by
          intro team oc hside
          cases team with
          | some t => rfl
          | none =>
            cases oc with
            | none => rfl
            | some c =>
              simp only [pwSide]
              by_cases hck : c ∈ structKeys b
              · have hce : childE b g c := childE_intro hl
                  (by rcases hside with rfl | rfl
                      · exact Or.inl rfl
                      · exact Or.inr rfl) hck
                apply ih c hce
                · intro m hm hmem
                  rcases List.mem_cons.mp hmem with heq | hmem
                  · rw [heq] at hm
                    exact goodAt_no_cycle (Acc.intro g hacc) hce hm
                  · exact h1 m (Relation.ReflTransGen.head hce hm) hmem
                · intro m hm hmem
                  rcases List.mem_cons.mp hmem with heq | hmem
                  · rw [heq] at hm
                    exact goodAt_no_cycle (Acc.intro g hacc) hce hm
                  · exact h2 m (Relation.ReflTransGen.head hce hm) hmem
              · have hlc : lookupKey c b.structure' = none := by
                  rw [lookupKey_eq_none_iff]
                  exact hck
                rw [pwAux_nil_of_nokey hlc, pwAux_nil_of_nokey hlc]
        rw [side _ l (Or.inl rfl), side _ r (Or.inr rfl)]

theorem roundAux_congr {b : BracketStructure} {g : Int} (hg : GoodAt b g) :
    ∀ v₁ v₂ : List Int,
      (∀ m, InSub b g m → m ∉ v₁) → (∀ m, InSub b g m → m ∉ v₂) →
      roundAux b v₁ g = roundAux b v₂ g := by
  induction hg with
  | intro g hacc ih =>
    intro v₁ v₂ h1 h2
    have hg1 : g ∉ v₁ := h1 g Relation.ReflTransGen.refl
    have hg2 : g ∉ v₂ := h2 g Relation.ReflTransGen.refl
    cases hl : lookupKey g b.structure' with
    | none => rw [roundAux_nokey hg1 hl, roundAux_nokey hg2 hl]
    | some p =>
      rcases p with ⟨l, r⟩
      by_cases hnn : l = none ∧ r = none
      · obtain ⟨rfl, rfl⟩ := hnn
        rw [roundAux_leaf hg1 hl, roundAux_leaf hg2 hl]
      · rw [roundAux_internal hg1 hl hnn, roundAux_internal hg2 hl hnn]
        have side : ∀ oc : Option Int, (oc = l ∨ oc = r) →
            roundSide b (g :: v₁) oc = roundSide b (g :: v₂) oc := by
          intro oc hside
          cases oc with
          | none => rfl
          | some c =>
            simp only [roundSide]
            by_cases hck : c ∈ structKeys b
            · have hce : childE b g c := childE_intro hl
                (by rcases hside with rfl | rfl
                    · exact Or.inl rfl
                    · exact Or.inr rfl) hck
              apply ih c hce
              · intro m hm hmem
                rcases List.mem_cons.mp hmem with heq | hmem
                · rw [heq] at hm
                  exact goodAt_no_cycle (Acc.intro g hacc) hce hm
                · exact h1 m (Relation.ReflTransGen.head hce hm) hmem
              · intro m hm hmem
                rcases List.mem_cons.mp hmem with heq | hmem
                · rw [heq] at hm
                  exact goodAt_no_cycle (Acc.intro g hacc) hce hm
                · exact h2 m (Relation.ReflTransGen.head hce hm) hmem
            · have hlc : lookupKey c b.structure' = none := by
                rw [lookupKey_eq_none_iff]
                exact hck
              rw [roundAux_zero_of_nokey hlc, roundAux_zero_of_nokey hlc]
        rw [side l (Or.inl rfl), side r (Or.inr rfl)]

theorem leavesUnder_congr {b : BracketStructure} {g : Int} (hg : GoodAt b g) :
    ∀ v₁ v₂ : List Int,
      (∀ m, InSub b g m → m ∉ v₁) → (∀ m, InSub b g m → m ∉ v₂) →
      leavesUnder b v₁ g = leavesUnder b v₂ g := by
  induction hg with
  | intro g hacc ih =>
    intro v₁ v₂ h1 h2
    have hg1 : g ∉ v₁ := h1 g Relation.ReflTransGen.refl
    have hg2 : g ∉ v₂ := h2 g Relation.ReflTransGen.refl
    cases hl : lookupKey g b.structure' with
    | none => rw [leavesUnder_nokey hg1 hl, leavesUnder_nokey hg2 hl]
    | some p =>
      rcases p with ⟨l, r⟩
      by_cases hnn : l = none ∧ r = none
      · obtain ⟨rfl, rfl⟩ := hnn
        rw [leavesUnder_leaf hg1 hl, leavesUnder_leaf hg2 hl]
      · rw [leavesUnder_internal hg1 hl hnn, leavesUnder_internal hg2 hl hnn]
        have side : ∀ oc : Option Int, (oc = l ∨ oc = r) →
            leavesSide b (g :: v₁) oc = leavesSide b (g :: v₂) oc := by
          intro oc hside
          cases oc with
          | none => rfl
          | some c =>
            simp only [leavesSide]
            by_cases hck : c ∈ structKeys b
            · have hce : childE b g c := childE_intro hl
                (by rcases hside with rfl | rfl
                    · exact Or.inl rfl
                    · exact Or.inr rfl) hck
              apply ih c hce
              · intro m hm hmem
                rcases List.mem_cons.mp hmem with heq | hmem
                · rw [heq] at hm
                  exact goodAt_no_cycle (Acc.intro g hacc) hce hm
                · exact h1 m (Relation.ReflTransGen.head hce hm) hmem
              · intro m hm hmem
                rcases List.mem_cons.mp hmem with heq | hmem
                · rw [heq] at hm
                  exact goodAt_no_cycle (Acc.intro g hacc) hce hm
                · exact h2 m (Relation.ReflTransGen.head hce hm) hmem
            · have hlc : lookupKey c b.structure' = none := by
                rw [lookupKey_eq_none_iff]
                exact hck
              rw [leavesUnder_nil_of_nokey hlc, leavesUnder_nil_of_nokey hlc]
        rw [side l (Or.inl rfl), side r (Or.inr rfl)]

/-! ### Characterizations of the validation phases -/

theorem keyErrors_nil_iff {b : BracketStructure} :
    keyErrors b = [] ↔ b.final_game ∈ structKeys b := by
  unfold keyErrors
  by_cases h : b.final_game ∈ structKeys b <;> simp [h]

theorem childErrors_nil_iff {keys : List Int} {gid c : Int} :
    childErrors keys gid c = [] ↔ (c ≠ gid ∧ c ∈ keys) := by
  unfold childErrors
  by_cases h1 : c = gid <;> by_cases h2 : c ∈ keys <;> simp [h1, h2]

theorem shape_of_valid {b : BracketStructure} (h : shapeErrors b = [])
    {gid : Int} {p : Slots} (hl : lookupKey gid b.structure' = some p) :
    p = (none, none) ∨ ∃ lc rc, p = (some lc, some rc) ∧ lc ≠ gid ∧ rc ≠ gid
      ∧ lc ∈ structKeys b ∧ rc ∈ structKeys b := by
  have hmem := mem_of_lookupKey hl
  unfold shapeErrors at h
  rw [List.flatten_eq_nil_iff] at h
  have hit : itemErrors (structKeys b) gid p = [] :=
    h _ (List.mem_map_of_mem (fun it => itemErrors (structKeys b) it.1 it.2) hmem)
  rcases p with ⟨l, r⟩
  cases l with
  | none =>
    cases r with
    | none => exact Or.inl rfl
    | some rc => simp [itemErrors] at hit
  | some lc =>
    cases r with
    | none => simp [itemErrors] at hit
    | some rc =>
      right
      refine ⟨lc, rc, rfl, ?_⟩
      simp only [itemErrors, List.append_eq_nil] at hit
      obtain ⟨h1, h2⟩ := hit
      obtain ⟨h1a, h1b⟩ := childErrors_nil_iff.mp h1
      obtain ⟨h2a, h2b⟩ := childErrors_nil_iff.mp h2
      exact ⟨h1a, h2a, h1b, h2b⟩

theorem fanIn_of_valid {b : BracketStructure} (h : fanInErrors b = [])
    {g : Int} (hg : g ∈ structKeys b) :
    (g = b.final_game → incoming_count b g = 0)
      ∧ (g ≠ b.final_game → incoming_count b g = 1) := by
  unfold fanInErrors at h
  rw [List.filterMap_eq_nil] at h
  have := h g hg
  by_cases hf : g = b.final_game
  · rw [if_pos hf] at this
    constructor
    · intro _
      by_contra hc
      rw [if_pos hc] at this
      cases this
    · intro hne
      exact absurd hf hne
  · rw [if_neg hf] at this
    constructor
    · intro heq
      exact absurd heq hf
    · intro _
      by_contra hc
      rw [if_pos hc] at this
      cases this

theorem reach_of_valid {b : BracketStructure}
    (hf : b.final_game ∈ structKeys b) (h : reachErrors b = []) :
    (dfsResult b).errors = [] ∧ ∀ g ∈ structKeys b, g ∈ (dfsResult b).visited := by
  unfold reachErrors at h
  rw [if_pos hf] at h
  simp only [List.append_eq_nil] at h
  refine ⟨h.1, ?_⟩
  intro g hg
  by_contra hng
  have hmemf : g ∈ (structKeys b).filter
      (fun k => decide (k ∉ (dfsResult b).visited)) := by
    rw [List.mem_filter]
    exact ⟨hg, by simpa using hng⟩
  have h2 := h.2
  by_cases hu : unreachableSorted b (dfsResult b).visited = []
  · unfold unreachableSorted at hu
    rw [sortedSet_eq_nil_iff] at hu
    rw [hu] at hmemf
    simp at hmemf
  · rw [if_neg hu] at h2
    cases h2

theorem closedList_goodAt {b : BracketStructure} {vl : List Int}
    (hC : ClosedList b vl) : ∀ m ∈ vl, GoodAt b m := by
  suffices H : ∀ k p m s, vl = p ++ m :: s → p.length ≤ k → GoodAt b m by
    intro m hm
    obtain ⟨p, s, rfl⟩ := List.append_of_mem hm
    exact H p.length p m s rfl le_rfl
  intro k
  induction k with
  | zero =>
    intro p m s hsplit hlen
    constructor
    intro c hc
    have hcp := hC p m s hsplit c hc
    rw [List.eq_nil_of_length_eq_zero (Nat.le_zero.mp hlen)] at hcp
    simp at hcp
  | succ k ih =>
    intro p m s hsplit hlen
    constructor
    intro c hc
    have hcp := hC p m s hsplit c hc
    obtain ⟨p1, p2, rfl⟩ := List.append_of_mem hcp
    have hsplit' : vl = p1 ++ c :: (p2 ++ m :: s) := by
      rw [hsplit]
      simp
    have hlen' : p1.length ≤ k := by
      rw [List.length_append, List.length_cons] at hlen
      omega
    exact ih p1 c (p2 ++ m :: s) hsplit' hlen'

/-- After a validation pass with no structural errors, every feeder chain in
the bracket is finite (the graph is well-founded everywhere). -/
theorem allGoodAt_of_valid {b : BracketStructure} (hk : keyErrors b = [])
    (hr : reachErrors b = []) : ∀ g, GoodAt b g := by
  have hf := keyErrors_nil_iff.mp hk
  obtain ⟨hdE, hvis⟩ := reach_of_valid hf hr
  have hC : ClosedList b (dfsResult b).visited := by
    unfold dfsResult at hdE ⊢
    apply dfs_closed b [] b.final_game ⟨[], []⟩
    · intro p m s hsplit c hc
      exact absurd hsplit.symm (by simp)
    · exact hdE
  intro g
  cases hg : lookupKey g b.structure' with
  | none => exact goodAt_of_nokey hg
  | some p =>
    have hgk : g ∈ structKeys b := lookupKey_mem_keys hg
    exact closedList_goodAt hC g (hvis g hgk)

/-! ### Unconditional unfolding equations (used to evaluate the recursive
functions on concrete brackets) -/

/-- Mark `n` finished: append it to the visited list. -/
def dfsPush (acc : DfsAcc) (n : Int) : DfsAcc :=
  ⟨acc.visited ++ [n], acc.errors⟩

theorem dfs_unfold (b : BracketStructure) (v : List Int) (n : Int) (acc : DfsAcc) :
    dfs b v n acc =
      if n ∈ v then ⟨acc.visited, acc.errors ++ [cycleMsg n]⟩
      else if n ∈ acc.visited then acc
      else
        match lookupKey n b.structure' with
        | none => acc
        | some (l, r) =>
          dfsPush (dfsChild b (n :: v) r (dfsChild b (n :: v) l acc)) n := by
  by_cases hv : n ∈ v
  · rw [dfs_cycle hv, if_pos hv]
  · rw [if_neg hv]
    by_cases hm : n ∈ acc.visited
    · rw [dfs_skip hv hm, if_pos hm]
    · rw [if_neg hm]
      cases h : lookupKey n b.structure' with
      | none => rw [dfs_nokey hv hm h]
      | some p =>
        rcases p with ⟨l, r⟩
        rw [dfs_main hv hm h]
        rfl

theorem pwAux_unfold (b : BracketStructure) (v : List Int) (g : Int) :
    pwAux b v g =
      if g ∈ v then []
      else
        match lookupKey g b.structure' with
        | none => []
        | some (none, none) =>
          optTeamList (gamesGet b g).1 ++ optTeamList (gamesGet b g).2
        | some (l, r) =>
          pwSide b (g :: v) (gamesGet b g).1 l
            ++ pwSide b (g :: v) (gamesGet b g).2 r := by
  by_cases hv : g ∈ v
  · rw [pwAux_cycle hv, if_pos hv]
  · rw [if_neg hv]
    cases h : lookupKey g b.structure' with
    | none => rw [pwAux_nokey hv h]
    | some p =>
      rcases p with ⟨l, r⟩
      by_cases hnn : l = none ∧ r = none
      · obtain ⟨rfl, rfl⟩ := hnn
        rw [pwAux_leaf hv h]
      · rw [pwAux_internal hv h hnn]
        cases l <;> cases r
        · exact absurd ⟨rfl, rfl⟩ hnn
        · rfl
        · rfl
        · rfl

theorem roundAux_unfold (b : BracketStructure) (v : List Int) (g : Int) :
    roundAux b v g =
      if g ∈ v then 0
      else
        match lookupKey g b.structure' with
        | none => 0
        | some (none, none) => 0
        | some (l, r) =>
          1 + max (roundSide b (g :: v) l) (roundSide b (g :: v) r) := by
  by_cases hv : g ∈ v
  · rw [roundAux_cycle hv, if_pos hv]
  · rw [if_neg hv]
    cases h : lookupKey g b.structure' with
    | none => rw [roundAux_nokey hv h]
    | some p =>
      rcases p with ⟨l, r⟩
      by_cases hnn : l = none ∧ r = none
      · obtain ⟨rfl, rfl⟩ := hnn
        rw [roundAux_leaf hv h]
      · rw [roundAux_internal hv h hnn]
        cases l <;> cases r
        · exact absurd ⟨rfl, rfl⟩ hnn
        · rfl
        · rfl
        · rfl

theorem leavesUnder_unfold (b : BracketStructure) (v : List Int) (g : Int) :
    leavesUnder b v g =
      if g ∈ v then []
      else
        match lookupKey g b.structure' with
        | none => []
        | some (none, none) => [g]
        | some (l, r) =>
          leavesSide b (g :: v) l ++ leavesSide b (g :: v) r := by
  by_cases hv : g ∈ v
  · rw [leavesUnder_cycle hv, if_pos hv]
  · rw [if_neg hv]
    cases h : lookupKey g b.structure' with
    | none => rw [leavesUnder_nokey hv h]
    | some p =>
      rcases p with ⟨l, r⟩
      by_cases hnn : l = none ∧ r = none
      · obtain ⟨rfl, rfl⟩ := hnn
        rw [leavesUnder_leaf hv h]
      · rw [leavesUnder_internal hv h hnn]
        cases l <;> cases r
        · exact absurd ⟨rfl, rfl⟩ hnn
        · rfl
        · rfl
        · rfl

theorem assign_unfold (b : BracketStructure) (v : List Int) (g : Int)
    (st : LayoutState) :
    assign_positions b v g st =
      if g ∈ v then st
      else
        match lookupKey g b.structure' with
        | none => st
        | some (none, none) =>
          ⟨updSlot (updSlot st.slotY g 0 (st.leafCursor + 1)) g 1 (st.leafCursor + 3),
           updCenter st.centerY g (st.leafCursor + 2),
           st.leafCursor + 5⟩
        | some (l, r) =>
          let st2 := apChild b (g :: v) r (apChild b (g :: v) l st)
          ⟨updSlot (updSlot st2.slotY g 0 (centerOf st2 l)) g 1 (centerOf st2 r),
           updCenter st2.centerY g ((centerOf st2 l + centerOf st2 r + 1) / 2),
           st2.leafCursor⟩ := by
  by_cases hv : g ∈ v
  · rw [assign_cycle hv, if_pos hv]
  · rw [if_neg hv]
    cases h : lookupKey g b.structure' with
    | none => rw [assign_nokey hv h]
    | some p =>
      rcases p with ⟨l, r⟩
      by_cases hnn : l = none ∧ r = none
      · obtain ⟨rfl, rfl⟩ := hnn
        rw [assign_leaf hv h]
      · rw [assign_internal hv h hnn]
        cases l <;> cases r
        · exact absurd ⟨rfl, rfl⟩ hnn
        · rfl
        · rfl
        · rfl

/-! ### Concrete example brackets (from the repository's test suite) -/

/-- The valid 8-leaf bracket of the tests (games 0-6, final 6). -/
def bEight : BracketStructure :=
  ⟨6, [(6, (some 4, some 5)), (5, (some 2, some 3)), (4, (some 0, some 1)),
       (3, (none, none)), (2, (none, none)), (1, (none, none)), (0, (none, none))],
   [(0, (some 111, some 222)), (1, (some 333, some 444)),
    (2, (some 555, some 666)), (3, (some 777, some 888))]⟩

/-- `bEight` plus the non-derivable assignment `4: [555, null]`. -/
def bEightBad : BracketStructure :=
  { bEight with games := bEight.games ++ [(4, (some 555, none))] }

/-- A bracket whose game 1 is referenced both by the final game and by a
malformed (mixed-null) game. -/
def bMixedRef : BracketStructure :=
  ⟨3, [(3, (some 2, some 1)), (2, (some 1, none)), (1, (none, none))], []⟩

/-- `bEight` plus an unreachable leaf `7`. -/
def bUnreach : BracketStructure :=
  { bEight with structure' := bEight.structure' ++ [(7, (none, none))] }

/-! ### Fuel-bounded executable twins

The recursive functions above are defined by well-founded recursion, which
the kernel does not unfold; these structurally recursive twins compute the
same values when given enough fuel (soundness is proved, adequacy is not
needed: each concrete use supplies enough fuel and is checked by `rfl`). -/

/-- One fuel-bounded child step (`next` is the recursive call). -/
def fuelStep (next : List Int → Int → DfsAcc → Option DfsAcc)
    (b : BracketStructure) (v : List Int) (oc : Option Int) (a : DfsAcc) :
    Option DfsAcc :=
  match oc with
  | some c => if (lookupKey c b.structure').isSome then next v c a else some a
  | none => some a

def dfsFuel : Nat → BracketStructure → List Int → Int → DfsAcc → Option DfsAcc
  | 0, _, _, _, _ => none
  | fuel + 1, b, v, n, acc =>
    if n ∈ v then some ⟨acc.visited, acc.errors ++ [cycleMsg n]⟩
    else if n ∈ acc.visited then some acc
    else
      match lookupKey n b.structure' with
      | none => some acc
      | some (l, r) =>
        match fuelStep (dfsFuel fuel b) b (n :: v) l acc with
        | none => none
        | some a1 =>
          match fuelStep (dfsFuel fuel b) b (n :: v) r a1 with
          | none => none
          | some a2 => some (dfsPush a2 n)

theorem dfsFuel_sound {fuel : Nat} {b : BracketStructure} {v : List Int}
    {n : Int} {acc res : DfsAcc} (h : dfsFuel fuel b v n acc = some res) :
    dfs b v n acc = res := by
  induction fuel generalizing v n acc res with
  | zero => simp [dfsFuel] at h
  | succ fuel ih =>
    rw [dfsFuel] at h
    rw [dfs_unfold]
    by_cases hv : n ∈ v
    · rw [if_pos hv] at h ⊢
      exact Option.some_injective _ h
    · rw [if_neg hv] at h ⊢
      by_cases hm : n ∈ acc.visited
      · rw [if_pos hm] at h ⊢
        exact Option.some_injective _ h
      · rw [if_neg hm] at h ⊢
        cases hl : lookupKey n b.structure' with
        | none =>
          rw [hl] at h
          exact Option.some_injective _ h
        | some p =>
          rcases p with ⟨l, r⟩
          rw [hl] at h
          simp only at h
          have hstep : ∀ (oc : Option Int) (a a' : DfsAcc),
              fuelStep (dfsFuel fuel b) b (n :: v) oc a = some a' →
              dfsChild b (n :: v) oc a = a' := by
            intro oc a a' hoc
            cases oc with
            | none =>
              simp only [fuelStep] at hoc
              simp only [dfsChild]
              exact Option.some_injective _ hoc
            | some c =>
              simp only [fuelStep] at hoc
              show (if (lookupKey c b.structure').isSome then dfs b (n :: v) c a
                else a) = a'
              by_cases hc : (lookupKey c b.structure').isSome
              · rw [if_pos hc]
                rw [if_pos hc] at hoc
                exact ih hoc
              · rw [if_neg hc]
                rw [if_neg hc] at hoc
                exact Option.some_injective _ hoc
          dsimp only [] at h ⊢
          cases h1 : fuelStep (dfsFuel fuel b) b (n :: v) l acc with
          | none => rw [h1] at h; cases h
          | some a1 =>
            rw [h1] at h
            dsimp only [] at h
            cases h2 : fuelStep (dfsFuel fuel b) b (n :: v) r a1 with
            | none => rw [h2] at h; cases h
            | some a2 =>
              rw [h2] at h
              dsimp only [] at h
              rw [hstep l acc a1 h1, hstep r a1 a2 h2]
              exact Option.some_injective _ h


def pwSideFuel (next : List Int → Int → Option (List Int)) (v : List Int)
    (team feeder : Option Int) : Option (List Int) :=
  match team with
  | some t => some [t]
  | none =>
    match feeder with
    | some c => next v c
    | none => some []

def pwFuel : Nat → BracketStructure → List Int → Int → Option (List Int)
  | 0, _, _, _ => none
  | fuel + 1, b, v, g =>
    if g ∈ v then some []
    else
      match lookupKey g b.structure' with
      | none => some []
      | some (none, none) =>
        some (optTeamList (gamesGet b g).1 ++ optTeamList (gamesGet b g).2)
      | some (l, r) =>
        match pwSideFuel (pwFuel fuel b) (g :: v) (gamesGet b g).1 l,
            pwSideFuel (pwFuel fuel b) (g :: v) (gamesGet b g).2 r with
        | some a, some c => some (a ++ c)
        | _, _ => none

theorem pwFuel_sound {fuel : Nat} {b : BracketStructure} {v : List Int}
    {g : Int} {res : List Int} (h : pwFuel fuel b v g = some res) :
    pwAux b v g = res := by
  induction fuel generalizing v g res with
  | zero => simp [pwFuel] at h
  | succ fuel ih =>
    rw [pwFuel] at h
    rw [pwAux_unfold]
    by_cases hv : g ∈ v
    · rw [if_pos hv] at h ⊢
      exact Option.some_injective _ h
    · rw [if_neg hv] at h ⊢
      cases hl : lookupKey g b.structure' with
      | none =>
        rw [hl] at h
        exact Option.some_injective _ h
      | some p =>
        rcases p with ⟨l, r⟩
        rw [hl] at h
        have hside : ∀ (team oc : Option Int) (res' : List Int),
            pwSideFuel (pwFuel fuel b) (g :: v) team oc = some res' →
            pwSide b (g :: v) team oc = res' := by
          intro team oc res' hoc
          cases team with
          | some t =>
            simp only [pwSideFuel] at hoc
            simp only [pwSide]
            exact Option.some_injective _ hoc
          | none =>
            cases oc with
            | some c =>
              simp only [pwSideFuel] at hoc
              show pwAux b (g :: v) c = res'
              exact ih hoc
            | none =>
              simp only [pwSideFuel] at hoc
              simp only [pwSide]
              exact Option.some_injective _ hoc
        cases l <;> cases r
        · dsimp only [] at h ⊢
          exact Option.some_injective _ h
        all_goals {
          dsimp only [] at h ⊢
          rename_i hx
          revert h
          cases h1 : pwSideFuel (pwFuel fuel b) (g :: v) (gamesGet b g).1 _ with
          | none => intro h; cases h
          | some a =>
            cases h2 : pwSideFuel (pwFuel fuel b) (g :: v) (gamesGet b g).2 _ with
            | none => intro h; cases h
            | some c =>
              intro h
              dsimp only [] at h
              rw [hside _ _ _ h1, hside _ _ _ h2]
              exact Option.some_injective _ h
        }

def roundSideFuel (next : List Int → Int → Option Nat) (v : List Int)
    (oc : Option Int) : Option Nat :=
  match oc with
  | some c => next v c
  | none => some 0

def roundFuel : Nat → BracketStructure → List Int → Int → Option Nat
  | 0, _, _, _ => none
  | fuel + 1, b, v, g =>
    if g ∈ v then some 0
    else
      match lookupKey g b.structure' with
      | none => some 0
      | some (none, none) => some 0
      | some (l, r) =>
        match roundSideFuel (roundFuel fuel b) (g :: v) l,
            roundSideFuel (roundFuel fuel b) (g :: v) r with
        | some a, some c => some (1 + max a c)
        | _, _ => none

theorem roundFuel_sound {fuel : Nat} {b : BracketStructure} {v : List Int}
    {g : Int} {res : Nat} (h : roundFuel fuel b v g = some res) :
    roundAux b v g = res := by
  induction fuel generalizing v g res with
  | zero => simp [roundFuel] at h
  | succ fuel ih =>
    rw [roundFuel] at h
    rw [roundAux_unfold]
    by_cases hv : g ∈ v
    · rw [if_pos hv] at h ⊢
      exact Option.some_injective _ h
    · rw [if_neg hv] at h ⊢
      cases hl : lookupKey g b.structure' with
      | none =>
        rw [hl] at h
        exact Option.some_injective _ h
      | some p =>
        rcases p with ⟨l, r⟩
        rw [hl] at h
        have hside : ∀ (oc : Option Int) (res' : Nat),
            roundSideFuel (roundFuel fuel b) (g :: v) oc = some res' →
            roundSide b (g :: v) oc = res' := by
          intro oc res' hoc
          cases oc with
          | some c =>
            simp only [roundSideFuel] at hoc
            show roundAux b (g :: v) c = res'
            exact ih hoc
          | none =>
            simp only [roundSideFuel] at hoc
            simp only [roundSide]
            exact Option.some_injective _ hoc
        cases l <;> cases r
        · dsimp only [] at h ⊢
          exact Option.some_injective _ h
        all_goals {
          dsimp only [] at h ⊢
          revert h
          cases h1 : roundSideFuel (roundFuel fuel b) (g :: v) _ with
          | none => intro h; cases h
          | some a =>
            cases h2 : roundSideFuel (roundFuel fuel b) (g :: v) _ with
            | none => intro h; cases h
            | some c =>
              intro h
              dsimp only [] at h
              rw [hside _ _ h1, hside _ _ h2]
              exact Option.some_injective _ h
        }

def leavesSideFuel (next : List Int → Int → Option (List Int)) (v : List Int)
    (oc : Option Int) : Option (List Int) :=
  match oc with
  | some c => next v c
  | none => some []

def leavesFuel : Nat → BracketStructure → List Int → Int → Option (List Int)
  | 0, _, _, _ => none
  | fuel + 1, b, v, g =>
    if g ∈ v then some []
    else
      match lookupKey g b.structure' with
      | none => some []
      | some (none, none) => some [g]
      | some (l, r) =>
        match leavesSideFuel (leavesFuel fuel b) (g :: v) l,
            leavesSideFuel (leavesFuel fuel b) (g :: v) r with
        | some a, some c => some (a ++ c)
        | _, _ => none

theorem leavesFuel_sound {fuel : Nat} {b : BracketStructure} {v : List Int}
    {g : Int} {res : List Int} (h : leavesFuel fuel b v g = some res) :
    leavesUnder b v g = res := by
  induction fuel generalizing v g res with
  | zero => simp [leavesFuel] at h
  | succ fuel ih =>
    rw [leavesFuel] at h
    rw [leavesUnder_unfold]
    by_cases hv : g ∈ v
    · rw [if_pos hv] at h ⊢
      exact Option.some_injective _ h
    · rw [if_neg hv] at h ⊢
      cases hl : lookupKey g b.structure' with
      | none =>
        rw [hl] at h
        exact Option.some_injective _ h
      | some p =>
        rcases p with ⟨l, r⟩
        rw [hl] at h
        have hside : ∀ (oc : Option Int) (res' : List Int),
            leavesSideFuel (leavesFuel fuel b) (g :: v) oc = some res' →
            leavesSide b (g :: v) oc = res' := by
          intro oc res' hoc
          cases oc with
          | some c =>
            simp only [leavesSideFuel] at hoc
            show leavesUnder b (g :: v) c = res'
            exact ih hoc
          | none =>
            simp only [leavesSideFuel] at hoc
            simp only [leavesSide]
            exact Option.some_injective _ hoc
        cases l <;> cases r
        · dsimp only [] at h ⊢
          exact Option.some_injective _ h
        all_goals {
          dsimp only [] at h ⊢
          revert h
          cases h1 : leavesSideFuel (leavesFuel fuel b) (g :: v) _ with
          | none => intro h; cases h
          | some a =>
            cases h2 : leavesSideFuel (leavesFuel fuel b) (g :: v) _ with
            | none => intro h; cases h
            | some c =>
              intro h
              dsimp only [] at h
              rw [hside _ _ h1, hside _ _ h2]
              exact Option.some_injective _ h
        }

def apSideFuel (next : List Int → Int → LayoutState → Option LayoutState)
    (v : List Int) (oc : Option Int) (st : LayoutState) : Option LayoutState :=
  match oc with
  | some c => next v c st
  | none => some st

def assignFuel : Nat → BracketStructure → List Int → Int → LayoutState →
    Option LayoutState
  | 0, _, _, _, _ => none
  | fuel + 1, b, v, g, st =>
    if g ∈ v then some st
    else
      match lookupKey g b.structure' with
      | none => some st
      | some (none, none) =>
        some ⟨updSlot (updSlot st.slotY g 0 (st.leafCursor + 1)) g 1
            (st.leafCursor + 3),
          updCenter st.centerY g (st.leafCursor + 2), st.leafCursor + 5⟩
      | some (l, r) =>
        match apSideFuel (assignFuel fuel b) (g :: v) l st with
        | none => none
        | some st1 =>
          match apSideFuel (assignFuel fuel b) (g :: v) r st1 with
          | none => none
          | some st2 =>
            some ⟨updSlot (updSlot st2.slotY g 0 (centerOf st2 l)) g 1
                (centerOf st2 r),
              updCenter st2.centerY g ((centerOf st2 l + centerOf st2 r + 1) / 2),
              st2.leafCursor⟩

theorem assignFuel_sound {fuel : Nat} {b : BracketStructure} {v : List Int}
    {g : Int} {st res : LayoutState} (h : assignFuel fuel b v g st = some res) :
    assign_positions b v g st = res := by
  induction fuel generalizing v g st res with
  | zero => simp [assignFuel] at h
  | succ fuel ih =>
    rw [assignFuel] at h
    rw [assign_unfold]
    by_cases hv : g ∈ v
    · rw [if_pos hv] at h ⊢
      exact Option.some_injective _ h
    · rw [if_neg hv] at h ⊢
      cases hl : lookupKey g b.structure' with
      | none =>
        rw [hl] at h
        exact Option.some_injective _ h
      | some p =>
        rcases p with ⟨l, r⟩
        rw [hl] at h
        have hside : ∀ (oc : Option Int) (st' res' : LayoutState),
            apSideFuel (assignFuel fuel b) (g :: v) oc st' = some res' →
            apChild b (g :: v) oc st' = res' := by
          intro oc st' res' hoc
          cases oc with
          | some c =>
            simp only [apSideFuel] at hoc
            show assign_positions b (g :: v) c st' = res'
            exact ih hoc
          | none =>
            simp only [apSideFuel] at hoc
            simp only [apChild]
            exact Option.some_injective _ hoc
        cases l <;> cases r
        · dsimp only [] at h ⊢
          exact Option.some_injective _ h
        · rename_i rc
          dsimp only [] at h ⊢
          revert h
          cases h1 : apSideFuel (assignFuel fuel b) (g :: v) none st with
          | none => intro h; cases h
          | some st1 =>
            intro h
            dsimp only [] at h
            revert h
            cases h2 : apSideFuel (assignFuel fuel b) (g :: v) (some rc) st1 with
            | none => intro h; cases h
            | some st2 =>
              intro h
              dsimp only [] at h
              rw [hside _ _ _ h1, hside _ _ _ h2]
              exact Option.some_injective _ h
        · rename_i lc
          dsimp only [] at h ⊢
          revert h
          cases h1 : apSideFuel (assignFuel fuel b) (g :: v) (some lc) st with
          | none => intro h; cases h
          | some st1 =>
            intro h
            dsimp only [] at h
            revert h
            cases h2 : apSideFuel (assignFuel fuel b) (g :: v) none st1 with
            | none => intro h; cases h
            | some st2 =>
              intro h
              dsimp only [] at h
              rw [hside _ _ _ h1, hside _ _ _ h2]
              exact Option.some_injective _ h
        · rename_i lc rc
          dsimp only [] at h ⊢
          revert h
          cases h1 : apSideFuel (assignFuel fuel b) (g :: v) (some lc) st with
          | none => intro h; cases h
          | some st1 =>
            intro h
            dsimp only [] at h
            revert h
            cases h2 : apSideFuel (assignFuel fuel b) (g :: v) (some rc) st1 with
            | none => intro h; cases h
            | some st2 =>
              intro h
              dsimp only [] at h
              rw [hside _ _ _ h1, hside _ _ _ h2]
              exact Option.some_injective _ h

def derivSlotFuel (fuel : Nat) (b : BracketStructure) (gid : Int)
    (team feeder : Option Int) (isLeft : Bool) : Option (List String) :=
  match team, feeder with
  | some t, some f =>
    (pwFuel fuel b [] f).map (fun poss =>
      if t ∈ poss then []
      else if isLeft then [notDerivableLeftMsg gid t f (sortedSet poss)]
      else [notDerivableRightMsg gid t f (sortedSet poss)])
  | some _, none => some []
  | none, _ => some []

def derivItemFuel (fuel : Nat) (b : BracketStructure) (gid : Int) (p : Slots) :
    Option (List String) :=
  match p with
  | (none, none) => some []
  | (lf, rf) =>
    match derivSlotFuel fuel b gid (gamesGet b gid).1 lf true,
        derivSlotFuel fuel b gid (gamesGet b gid).2 rf false with
    | some a, some c => some (a ++ c)
    | _, _ => none

def derivListFuel (fuel : Nat) (b : BracketStructure) :
    List (Int × Slots) → Option (List String)
  | [] => some []
  | it :: rest =>
    match derivItemFuel fuel b it.1 it.2, derivListFuel fuel b rest with
    | some a, some c => some (a ++ c)
    | _, _ => none

def reachErrorsFuel (fuel : Nat) (b : BracketStructure) : Option (List String) :=
  if b.final_game ∈ structKeys b then
    (dfsFuel fuel b [] b.final_game ⟨[], []⟩).map (fun res =>
      res.errors ++ (if unreachableSorted b res.visited = [] then []
        else [unreachMsg b.final_game (unreachableSorted b res.visited)]))
  else some []

def validateFuel (fuel : Nat) (b : BracketStructure) : Option (List String) :=
  match reachErrorsFuel fuel b, derivListFuel fuel b b.structure' with
  | some re, some de =>
    some
      (let pre := keyErrors b ++ shapeErrors b ++ leafErrors b ++ fanInErrors b
        ++ assignmentErrors b ++ re
      pre ++ if pre = [] then de else [])
  | _, _ => none

theorem derivSlotFuel_sound {fuel : Nat} {b : BracketStructure} {gid : Int}
    {team feeder : Option Int} {isLeft : Bool} {es : List String}
    (h : derivSlotFuel fuel b gid team feeder isLeft = some es) :
    derivSlotErrors b gid team feeder isLeft = es := by
  cases team with
  | none =>
    simp only [derivSlotFuel] at h
    simp only [derivSlotErrors]
    exact Option.some_injective _ h
  | some t =>
    cases feeder with
    | none =>
      simp only [derivSlotFuel] at h
      simp only [derivSlotErrors]
      exact Option.some_injective _ h
    | some f =>
      simp only [derivSlotFuel] at h
      cases hpw : pwFuel fuel b [] f with
      | none => rw [hpw] at h; cases h
      | some poss =>
        rw [hpw] at h
        simp only [Option.map_some'] at h
        have hp : possible_winners b f = poss := pwFuel_sound hpw
        simp only [derivSlotErrors, hp]
        exact Option.some_injective _ h

theorem derivItemFuel_sound {fuel : Nat} {b : BracketStructure} {gid : Int}
    {p : Slots} {es : List String} (h : derivItemFuel fuel b gid p = some es) :
    derivItemErrors b gid p = es := by
  rcases p with ⟨l, r⟩
  cases l <;> cases r
  · simp only [derivItemFuel] at h
    simp only [derivItemErrors]
    exact Option.some_injective _ h
  all_goals {
    simp only [derivItemFuel] at h
    revert h
    cases h1 : derivSlotFuel fuel b gid (gamesGet b gid).1 _ true with
    | none => intro h; cases h
    | some a =>
      cases h2 : derivSlotFuel fuel b gid (gamesGet b gid).2 _ false with
      | none => intro h; cases h
      | some c =>
        intro h
        dsimp only [] at h
        simp only [derivItemErrors]
        rw [derivSlotFuel_sound h1, derivSlotFuel_sound h2]
        exact Option.some_injective _ h
  }

theorem derivListFuel_sound {fuel : Nat} {b : BracketStructure} :
    ∀ {l : List (Int × Slots)} {es : List String},
    derivListFuel fuel b l = some es →
    (l.map (fun it => derivItemErrors b it.1 it.2)).flatten = es := by
  intro l
  induction l with
  | nil =>
    intro es h
    simp only [derivListFuel] at h
    simpa using Option.some_injective _ h
  | cons it rest ih =>
    intro es h
    simp only [derivListFuel] at h
    revert h
    cases h1 : derivItemFuel fuel b it.1 it.2 with
    | none => intro h; cases h
    | some a =>
      cases h2 : derivListFuel fuel b rest with
      | none => intro h; cases h
      | some c =>
        intro h
        dsimp only [] at h
        simp only [List.map_cons, List.flatten_cons]
        rw [derivItemFuel_sound h1, ih h2]
        exact Option.some_injective _ h

theorem reachErrorsFuel_sound {fuel : Nat} {b : BracketStructure}
    {es : List String} (h : reachErrorsFuel fuel b = some es) :
    reachErrors b = es := by
  unfold reachErrorsFuel at h
  unfold reachErrors
  by_cases hf : b.final_game ∈ structKeys b
  · rw [if_pos hf] at h ⊢
    revert h
    cases hd : dfsFuel fuel b [] b.final_game ⟨[], []⟩ with
    | none => intro h; cases h
    | some res =>
      intro h
      simp only [Option.map_some'] at h
      have : dfsResult b = res := dfsFuel_sound hd
      rw [this]
      exact Option.some_injective _ h
  · rw [if_neg hf] at h ⊢
    exact Option.some_injective _ h

theorem validateFuel_sound {fuel : Nat} {b : BracketStructure}
    {es : List String} (h : validateFuel fuel b = some es) :
    validateErrors b = es := by
  unfold validateFuel at h
  revert h
  cases h1 : reachErrorsFuel fuel b with
  | none => intro h; cases h
  | some re =>
    cases h2 : derivListFuel fuel b b.structure' with
    | none => intro h; cases h
    | some de =>
      intro h
      dsimp only [] at h
      have hre : reachErrors b = re := reachErrorsFuel_sound h1
      have hde : derivErrors b = de := by
        unfold derivErrors
        exact derivListFuel_sound h2
      unfold validateErrors preDerivErrors
      rw [hre, hde]
      exact Option.some_injective _ h

/-! ### The claims -/

/-- C1: Construction of a `BracketStructure` either succeeds returning the
value unchanged or fails with a single error value whose message joins every
violation collected in the pass; the final-key, shape, leaf-existence,
fan-in, assignment-key/duplicate-team and cycle/reachability groups all
contribute their errors without short-circuiting one another, and the
derivability group (rule 10) contributes only when every prior group found
nothing. -/
theorem claim_C1_error_aggregation (b : BracketStructure) :
    (mkBracket b = .ok b ↔ validateErrors b = []) ∧
    (validateErrors b ≠ [] →
      mkBracket b = .error ("Invalid bracket structure: "
        ++ String.intercalate " " (validateErrors b))) ∧
    validateErrors b
      = keyErrors b ++ shapeErrors b ++ leafErrors b ++ fanInErrors b
        ++ assignmentErrors b ++ reachErrors b
        ++ (if keyErrors b ++ shapeErrors b ++ leafErrors b ++ fanInErrors b
            ++ assignmentErrors b ++ reachErrors b = [] then derivErrors b
          else []) ∧
    (∀ e, (e ∈ keyErrors b ∨ e ∈ shapeErrors b ∨ e ∈ leafErrors b
        ∨ e ∈ fanInErrors b ∨ e ∈ assignmentErrors b ∨ e ∈ reachErrors b) →
      e ∈ validateErrors b) ∧
    (preDerivErrors b = [] → ∀ e ∈ derivErrors b, e ∈ validateErrors b) ∧
    (preDerivErrors b ≠ [] → validateErrors b = preDerivErrors b) := by
  refine ⟨?_, ?_, ?_, ?_, ?_, ?_⟩
  · unfold mkBracket
    by_cases h : validateErrors b = [] <;> simp [h]
  · intro h
    unfold mkBracket
    rw [if_neg h]
  · rfl
  · intro e he
    unfold validateErrors preDerivErrors
    rcases he with h | h | h | h | h | h <;>
      simp [List.mem_append, h]
  · intro h e he
    unfold validateErrors
    rw [h, if_pos rfl]
    simpa using he
  · intro h
    unfold validateErrors
    rw [if_neg h]
    simp

theorem claim_C1_error_aggregation_witness :
    mkBracket bMixedRef = .error ("Invalid bracket structure: "
      ++ String.intercalate " " (validateErrors bMixedRef)) :=
  (claim_C1_error_aggregation bMixedRef).2.1 (by
    rw [show validateErrors bMixedRef = [mixedMsg 2 (some 1, none)] from
      validateFuel_sound (show validateFuel 20 bMixedRef = some _ from by decide)]
    simp)

/-- The statement of claim C9 as the spec words it: rendering fails
immediately when the name width is non-positive *or* the mode is not one of
the two defined modes, and returns text for every other combination on a
valid graph. -/
def c9Statement : Prop :=
  ∀ (b : BracketStructure) (teams : List Team) (w : Int) (mode : String),
    ((w ≤ 0 ∨ (mode ≠ "ascii" ∧ mode ≠ "box")) →
      ∃ e, to_ascii_bracket b teams w mode = .error e) ∧
    (¬(w ≤ 0 ∨ (mode ≠ "ascii" ∧ mode ≠ "box")) → validateErrors b = [] →
      ∃ s, to_ascii_bracket b teams w mode = .ok s)

/-- C9 (counterexample): an unrecognized render mode does *not* fail — the
runtime test `mode == "ascii"` simply falls through to the box glyph set, so
rendering a valid bracket with mode `"diagonal"` succeeds. -/
theorem claim_C9_counterexample : ¬ c9Statement := by
  intro h
  obtain ⟨e, he⟩ := (h bEight [] 10 "diagonal").1
    (Or.inr ⟨by decide, by decide⟩)
  unfold to_ascii_bracket at he
  rw [if_neg (by decide : ¬((10 : Int) ≤ 0))] at he
  cases he

/-- C9 (amended): the render call fails, producing no output, exactly when
the caller-supplied name width is non-positive (with the message
`name_width must be positive.`); for every positive width on a valid graph
it returns text, and an unrecognized mode string is not rejected but renders
with the box glyph set. -/
theorem claim_C9_render_errors (b : BracketStructure) (teams : List Team)
    (w : Int) (mode : String) :
    (w ≤ 0 →
      to_ascii_bracket b teams w mode = .error "name_width must be positive.") ∧
    (0 < w → validateErrors b = [] →
      ∃ s, to_ascii_bracket b teams w mode = .ok s) ∧
    (0 < w → mode ≠ "ascii" →
      to_ascii_bracket b teams w mode = to_ascii_bracket b teams w "box") := by
  refine ⟨?_, ?_, ?_⟩
  · intro h
    unfold to_ascii_bracket
    rw [if_pos h]
  · intro hw _
    unfold to_ascii_bracket
    rw [if_neg (not_le.mpr hw)]
    exact ⟨_, rfl⟩
  · intro hw hm
    unfold to_ascii_bracket
    rw [if_neg (not_le.mpr hw), if_neg (not_le.mpr hw)]
    rw [if_neg hm, if_neg (by decide : ¬("box" : String) = "ascii")]

theorem claim_C9_render_errors_witness :
    to_ascii_bracket bEight [] 0 "ascii" = .error "name_width must be positive."
      ∧ to_ascii_bracket bEight [] 10 "diagonal"
        = to_ascii_bracket bEight [] 10 "box" :=
  ⟨(claim_C9_render_errors bEight [] 0 "ascii").1 (by decide),
   (claim_C9_render_errors bEight [] 10 "diagonal").2.2 (by decide) (by decide)⟩

/-- C5: the cycle/reachability pass is the DFS from `final_game` over feeder
edges with the three node states: hitting a node currently on the recursion
stack appends a cycle error naming it and does not descend (the accumulator
is returned unchanged apart from that error); a finished node is skipped;
every node the traversal marks visited is a topology key; and after the
traversal the keys not marked visited are reported — exactly them, in
strictly ascending order — under the unreachable-games error, which is
appended after the cycle errors. -/
theorem claim_C5_dfs_reachability (b : BracketStructure) :
    (∀ (v : List Int) (n : Int) (acc : DfsAcc), n ∈ v →
      dfs b v n acc = ⟨acc.visited, acc.errors ++ [cycleMsg n]⟩) ∧
    (∀ (v : List Int) (n : Int) (acc : DfsAcc), n ∉ v → n ∈ acc.visited →
      dfs b v n acc = acc) ∧
    (∀ m ∈ (dfsResult b).visited, m ∈ structKeys b) ∧
    (b.final_game ∈ structKeys b →
      ((unreachableSorted b (dfsResult b).visited).Sorted (· < ·)) ∧
      (∀ k, k ∈ unreachableSorted b (dfsResult b).visited
        ↔ k ∈ structKeys b ∧ k ∉ (dfsResult b).visited) ∧
      (unreachableSorted b (dfsResult b).visited ≠ [] →
        reachErrors b = (dfsResult b).errors
          ++ [unreachMsg b.final_game
            (unreachableSorted b (dfsResult b).visited)]) ∧
      (unreachableSorted b (dfsResult b).visited = [] →
        reachErrors b = (dfsResult b).errors)) := by
  refine ⟨fun v n acc hv => dfs_cycle hv,
    fun v n acc hv hm => dfs_skip hv hm, ?_, ?_⟩
  · intro m hm
    rcases dfs_visited_new b [] b.final_game ⟨[], []⟩ m hm with h | ⟨_, hk⟩
    · simp at h
    · exact hk
  · intro hf
    refine ⟨sortedSet_sorted _, ?_, ?_, ?_⟩
    · intro k
      unfold unreachableSorted
      rw [mem_sortedSet, List.mem_filter]
      simp
    · intro hU
      unfold reachErrors
      rw [if_pos hf]
      show (dfsResult b).errors
          ++ (if unreachableSorted b (dfsResult b).visited = [] then []
            else [unreachMsg b.final_game
              (unreachableSorted b (dfsResult b).visited)]) = _
      rw [if_neg hU]
    · intro hU
      unfold reachErrors
      rw [if_pos hf]
      show (dfsResult b).errors
          ++ (if unreachableSorted b (dfsResult b).visited = [] then []
            else [unreachMsg b.final_game
              (unreachableSorted b (dfsResult b).visited)]) = _
      rw [if_pos hU]
      simp

theorem claim_C5_dfs_reachability_witness :
    dfs bEight [5] 5 ⟨[], []⟩ = ⟨[], [cycleMsg 5]⟩ ∧
    reachErrors bUnreach = (dfsResult bUnreach).errors
      ++ [unreachMsg 6 (unreachableSorted bUnreach (dfsResult bUnreach).visited)] := by
  constructor
  · exact (claim_C5_dfs_reachability bEight).1 [5] 5 ⟨[], []⟩ (by decide)
  · have hd : dfsResult bUnreach = ⟨[0, 1, 4, 2, 3, 5, 6], []⟩ :=
      dfsFuel_sound (show dfsFuel 20 bUnreach [] 6 ⟨[], []⟩ = some _ from by decide)
    exact ((claim_C5_dfs_reachability bUnreach).2.2.2 (by decide)).2.2.1
      (by rw [hd]; decide)

theorem mkBracket_ok_iff {b : BracketStructure} :
    mkBracket b = .ok b ↔ validateErrors b = [] := by
  unfold mkBracket
  by_cases h : validateErrors b = [] <;> simp [h]

theorem mkBracket_error_of_ne {b : BracketStructure}
    (h : validateErrors b ≠ []) :
    mkBracket b = .error ("Invalid bracket structure: "
      ++ String.intercalate " " (validateErrors b)) := by
  unfold mkBracket
  rw [if_neg h]

theorem preDeriv_parts {b : BracketStructure} (h : preDerivErrors b = []) :
    keyErrors b = [] ∧ shapeErrors b = [] ∧ leafErrors b = []
      ∧ fanInErrors b = [] ∧ assignmentErrors b = [] ∧ reachErrors b = [] := by
  unfold preDerivErrors at h
  simp only [List.append_eq_nil] at h
  tauto

theorem validateErrors_eq_deriv {b : BracketStructure}
    (h : preDerivErrors b = []) : validateErrors b = derivErrors b := by
  unfold validateErrors
  rw [h, if_pos rfl]
  simp

/-- C3: with all structural, assignment-key and duplicate-team checks clean,
a team assigned to an internal game's slot that is not a possible winner of
that slot's feeder makes construction fail, and the failure list holds the
message naming the game, the team and the feeder's sorted possible set;
conversely, if every assigned slot of every internal game is derivable,
construction succeeds. -/
theorem claim_C3_derivability (b : BracketStructure)
    (hpre : preDerivErrors b = []) :
    (∀ gid lc rc, (gid, (some lc, some rc)) ∈ b.structure' →
      (∀ t, (gamesGet b gid).1 = some t → t ∉ possible_winners b lc →
        notDerivableLeftMsg gid t lc (sortedSet (possible_winners b lc))
            ∈ validateErrors b
          ∧ mkBracket b = .error ("Invalid bracket structure: "
            ++ String.intercalate " " (validateErrors b)))
      ∧ (∀ t, (gamesGet b gid).2 = some t → t ∉ possible_winners b rc →
        notDerivableRightMsg gid t rc (sortedSet (possible_winners b rc))
            ∈ validateErrors b
          ∧ mkBracket b = .error ("Invalid bracket structure: "
            ++ String.intercalate " " (validateErrors b)))) ∧
    ((∀ gid lc rc, (gid, (some lc, some rc)) ∈ b.structure' →
      (∀ t, (gamesGet b gid).1 = some t → t ∈ possible_winners b lc)
        ∧ (∀ t, (gamesGet b gid).2 = some t → t ∈ possible_winners b rc)) →
      mkBracket b = .ok b) := by
  constructor
  · intro gid lc rc hmem
    have hitem : derivItemErrors b gid (some lc, some rc) ∈
        b.structure'.map (fun it => derivItemErrors b it.1 it.2) :=
      List.mem_map_of_mem _ hmem
    constructor
    · intro t ht hnot
      have hmsg : notDerivableLeftMsg gid t lc (sortedSet (possible_winners b lc))
          ∈ derivItemErrors b gid (some lc, some rc) := by
        unfold derivItemErrors
        rw [List.mem_append]
        left
        unfold derivSlotErrors
        rw [ht]
        dsimp only []
        rw [if_neg hnot]
        simp
      have hin : notDerivableLeftMsg gid t lc (sortedSet (possible_winners b lc))
          ∈ validateErrors b := by
        rw [validateErrors_eq_deriv hpre]
        unfold derivErrors
        rw [List.mem_flatten]
        exact ⟨_, hitem, hmsg⟩
      exact ⟨hin, mkBracket_error_of_ne (List.ne_nil_of_mem hin)⟩
    · intro t ht hnot
      have hmsg : notDerivableRightMsg gid t rc (sortedSet (possible_winners b rc))
          ∈ derivItemErrors b gid (some lc, some rc) := by
        unfold derivItemErrors
        rw [List.mem_append]
        right
        unfold derivSlotErrors
        rw [ht]
        dsimp only []
        rw [if_neg hnot]
        simp
      have hin : notDerivableRightMsg gid t rc (sortedSet (possible_winners b rc))
          ∈ validateErrors b := by
        rw [validateErrors_eq_deriv hpre]
        unfold derivErrors
        rw [List.mem_flatten]
        exact ⟨_, hitem, hmsg⟩
      exact ⟨hin, mkBracket_error_of_ne (List.ne_nil_of_mem hin)⟩
  · intro hall
    rw [mkBracket_ok_iff, validateErrors_eq_deriv hpre]
    unfold derivErrors
    rw [List.flatten_eq_nil_iff]
    intro es hes
    rw [List.mem_map] at hes
    obtain ⟨it, hit, rfl⟩ := hes
    rcases it with ⟨gid, l, r⟩
    cases l with
    | none =>
      cases r with
      | none => rfl
      | some rcv =>
        -- a mixed pair contradicts the clean shape phase
        exfalso
        have hshape := (preDeriv_parts hpre).2.1
        unfold shapeErrors at hshape
        rw [List.flatten_eq_nil_iff] at hshape
        have := hshape (itemErrors (structKeys b) gid (none, some rcv))
          (List.mem_map_of_mem _ hit)
        simp [itemErrors] at this
    | some lcv =>
      cases r with
      | none =>
        exfalso
        have hshape := (preDeriv_parts hpre).2.1
        unfold shapeErrors at hshape
        rw [List.flatten_eq_nil_iff] at hshape
        have := hshape (itemErrors (structKeys b) gid (some lcv, none))
          (List.mem_map_of_mem _ hit)
        simp [itemErrors] at this
      | some rcv =>
        obtain ⟨hleft, hright⟩ := hall gid lcv rcv hit
        unfold derivItemErrors
        dsimp only []
        have h1 : derivSlotErrors b gid (gamesGet b gid).1 (some lcv) true = [] := by
          unfold derivSlotErrors
          cases hgt : (gamesGet b gid).1 with
          | none => rfl
          | some t =>
            dsimp only []
            rw [if_pos (hleft t hgt)]
        have h2 : derivSlotErrors b gid (gamesGet b gid).2 (some rcv) false = [] := by
          unfold derivSlotErrors
          cases hgt : (gamesGet b gid).2 with
          | none => rfl
          | some t =>
            dsimp only []
            rw [if_pos (hright t hgt)]
        rw [h1, h2]
        rfl

theorem claim_C3_derivability_witness :
    notDerivableLeftMsg 4 555 0 (sortedSet (possible_winners bEightBad 0))
        ∈ validateErrors bEightBad
      ∧ mkBracket bEight = .ok bEight := by
  have hpre : preDerivErrors bEightBad = [] := by
    unfold preDerivErrors
    rw [reachErrorsFuel_sound
      (show reachErrorsFuel 20 bEightBad = some [] from by decide)]
    decide
  have hpw : possible_winners bEightBad 0 = [111, 222] :=
    pwFuel_sound (show pwFuel 20 bEightBad [] 0 = some _ from by decide)
  constructor
  · exact (((claim_C3_derivability bEightBad hpre).1 4 0 1 (by decide)).1
      555 (by decide) (by rw [hpw]; decide)).1
  · rw [mkBracket_ok_iff]
    exact validateFuel_sound
      (show validateFuel 20 bEight = some [] from by decide)

theorem preDeriv_nil_of_validate {b : BracketStructure}
    (h : validateErrors b = []) : preDerivErrors b = [] := by
  unfold validateErrors at h
  exact (List.append_eq_nil.mp h).1

theorem refCountOthers_eq_incoming {b : BracketStructure}
    (hshape : shapeErrors b = []) {g : Int} (hg : g ∈ structKeys b) :
    refCountOthers b g = incoming_count b g := by
  unfold refCountOthers incoming_count
  congr 1
  apply List.map_congr_left
  intro it hit
  have hie : itemErrors (structKeys b) it.1 it.2 = [] := by
    unfold shapeErrors at hshape
    rw [List.flatten_eq_nil_iff] at hshape
    exact hshape _ (List.mem_map_of_mem _ hit)
  rcases it with ⟨gid, l, r⟩
  dsimp only []
  cases l with
  | none =>
    cases r with
    | none =>
      simp [itemIncoming]
    | some rc => simp [itemErrors] at hie
  | some lc =>
    cases r with
    | none => simp [itemErrors] at hie
    | some rc =>
      simp only [itemErrors, List.append_eq_nil] at hie
      obtain ⟨h1a, h1b⟩ := childErrors_nil_iff.mp hie.1
      obtain ⟨h2a, h2b⟩ := childErrors_nil_iff.mp hie.2
      simp only [itemIncoming, slotHit]
      rw [if_neg h1a, if_pos h1b, if_neg h2a, if_pos h2b]
      by_cases hgidg : gid = g
      · subst hgidg
        rw [if_pos rfl]
        rw [if_neg h1a, if_neg h2a]
      · rw [if_neg hgidg]
        by_cases hl : lc = g <;> by_cases hr : rc = g <;>
          simp [hl, hr]

/-- The statement of claim C4 as written: on success every non-final key has
fan-in (feeder references from other games) exactly 1 and the final game 0,
and any input violating either count fails with the message carrying the
offending game id and that count. -/
def c4Statement : Prop :=
  ∀ b : BracketStructure,
    (mkBracket b = .ok b →
      ∀ g ∈ structKeys b,
        (g ≠ b.final_game → refCountOthers b g = 1)
        ∧ (g = b.final_game → refCountOthers b g = 0)) ∧
    (∀ g ∈ structKeys b,
      ((g ≠ b.final_game ∧ refCountOthers b g ≠ 1)
        ∨ (g = b.final_game ∧ refCountOthers b g ≠ 0)) →
      mkBracket b ≠ .ok b
        ∧ (fanInMsg g (refCountOthers b g) ∈ validateErrors b
          ∨ finalFanInMsg g (refCountOthers b g) ∈ validateErrors b))

/-- C4 (counterexample): in `bMixedRef` game 1 is referenced by two other
games (by the final game and by the malformed game 2), violating the
fan-in-1 requirement; construction does fail, but only with the mixed-pair
message — the validator's counting loop skips references made by malformed
games, so no message names game 1 and its count. -/
theorem claim_C4_counterexample : ¬ c4Statement := by
  intro h
  have h2 := ((h bMixedRef).2 1 (by decide)
    (Or.inl ⟨by decide, by decide⟩)).2
  rw [show validateErrors bMixedRef = [mixedMsg 2 (some 1, none)] from
    validateFuel_sound (show validateFuel 20 bMixedRef = some _ from by decide)] at h2
  rcases h2 with h2 | h2 <;>
    · rw [List.mem_singleton] at h2
      exact absurd h2 (by decide)

/-- C4 (amended): every successfully constructed bracket satisfies the
fan-in invariant — each non-final key is referenced as a feeder by exactly
one slot of another game and the final game by none, both for the true
reference count and for the validator's observed count; and whenever the
*observed* count (which ignores references from malformed games, self
references and references to missing ids) violates either requirement,
construction fails and the error list holds the message naming the game and
the observed count. -/
theorem claim_C4_fan_in (b : BracketStructure) :
    (mkBracket b = .ok b →
      ∀ g ∈ structKeys b,
        (g ≠ b.final_game → refCountOthers b g = 1 ∧ incoming_count b g = 1)
        ∧ (g = b.final_game → refCountOthers b g = 0 ∧ incoming_count b g = 0)) ∧
    (∀ g ∈ structKeys b,
      (g ≠ b.final_game → incoming_count b g ≠ 1 →
        fanInMsg g (incoming_count b g) ∈ validateErrors b
          ∧ mkBracket b ≠ .ok b)
      ∧ (g = b.final_game → incoming_count b g ≠ 0 →
        finalFanInMsg g (incoming_count b g) ∈ validateErrors b
          ∧ mkBracket b ≠ .ok b)) := by
  constructor
  · intro hok g hg
    have hnil := mkBracket_ok_iff.mp hok
    have hparts := preDeriv_parts (preDeriv_nil_of_validate hnil)
    have hcounts := fanIn_of_valid hparts.2.2.2.1 hg
    have heq := refCountOthers_eq_incoming hparts.2.1 hg
    constructor
    · intro hne
      rw [heq]
      exact ⟨hcounts.2 hne, hcounts.2 hne⟩
    · intro hfe
      rw [heq]
      exact ⟨hcounts.1 hfe, hcounts.1 hfe⟩
  · intro g hg
    have hmem : ∀ msg, (if g = b.final_game then
        (if incoming_count b g ≠ 0 then some (finalFanInMsg g (incoming_count b g)) else none)
        else if incoming_count b g ≠ 1 then some (fanInMsg g (incoming_count b g)) else none)
          = some msg →
        msg ∈ validateErrors b := by
      intro msg hif
      have hf : msg ∈ fanInErrors b := by
        unfold fanInErrors
        rw [List.mem_filterMap]
        exact ⟨g, hg, hif⟩
      unfold validateErrors preDerivErrors
      simp only [List.mem_append]
      tauto
    constructor
    · intro hne hcount
      have hin := hmem (fanInMsg g (incoming_count b g))
        (by rw [if_neg hne, if_pos hcount])
      exact ⟨hin, fun hok => List.ne_nil_of_mem hin (mkBracket_ok_iff.mp hok)⟩
    · intro hfe hcount
      have hin := hmem (finalFanInMsg g (incoming_count b g))
        (by rw [if_pos hfe, if_pos hcount])
      exact ⟨hin, fun hok => List.ne_nil_of_mem hin (mkBracket_ok_iff.mp hok)⟩

theorem claim_C4_fan_in_witness :
    refCountOthers bEight 0 = 1 ∧ incoming_count bEight 6 = 0
      ∧ fanInMsg 7 0 ∈ validateErrors bUnreach := by
  have hok : mkBracket bEight = .ok bEight := by
    rw [mkBracket_ok_iff]
    exact validateFuel_sound (show validateFuel 20 bEight = some [] from by decide)
  refine ⟨(((claim_C4_fan_in bEight).1 hok 0 (by decide)).1 (by decide)).1,
    (((claim_C4_fan_in bEight).1 hok 6 (by decide)).2 (by decide)).2, ?_⟩
  exact (((claim_C4_fan_in bUnreach).2 7 (by decide)).1 (by decide) (by decide)).1

theorem mem_optTeamList {o : Option Int} {t : Int} :
    t ∈ optTeamList o ↔ o = some t := by
  cases o <;> simp [optTeamList, eq_comm]

instance (b : BracketStructure) (g : Int) : Decidable (IsLeafAt b g) := by
  unfold IsLeafAt
  infer_instance

instance (b : BracketStructure) (g lc rc : Int) :
    Decidable (IsInternalAt b g lc rc) := by
  unfold IsInternalAt
  infer_instance

/-- The structural validation groups (rules 1-7) all pass. -/
def StructurallyValid (b : BracketStructure) : Prop :=
  keyErrors b = [] ∧ shapeErrors b = [] ∧ leafErrors b = []
    ∧ fanInErrors b = [] ∧ reachErrors b = []

/-- Per-side contribution of the spec's winner-set recursion: the singleton
of the explicitly assigned team when the slot is filled, otherwise the
possible winners of the feeder. -/
def sideContribution (b : BracketStructure) (team : Option Int) (feeder t : Int) :
    Prop :=
  match team with
  | some a => t = a
  | none => t ∈ possible_winners b feeder

/-- C2: on a structurally valid bracket, `possibleWinners` satisfies the
spec's equations: for a leaf game it is the set of team ids assigned to its
two slots, and for an internal game with feeders `(lc, rc)` it is the union
over both sides of the singleton of the assigned team when that slot is
filled and `possibleWinners` of the feeder otherwise. -/
theorem claim_C2_possible_winners (b : BracketStructure)
    (hv : StructurallyValid b) :
    ∀ g ∈ structKeys b,
      (IsLeafAt b g → ∀ t,
        (t ∈ possible_winners b g ↔
          (gamesGet b g).1 = some t ∨ (gamesGet b g).2 = some t)) ∧
      (∀ lc rc, IsInternalAt b g lc rc → ∀ t,
        (t ∈ possible_winners b g ↔
          sideContribution b (gamesGet b g).1 lc t
            ∨ sideContribution b (gamesGet b g).2 rc t)) := by
  obtain ⟨hk, hs, hl, hf, hr⟩ := hv
  have hgood := allGoodAt_of_valid hk hr
  intro g hg
  constructor
  · intro hleaf t
    unfold possible_winners
    rw [pwAux_leaf (by simp) hleaf]
    rw [List.mem_append, mem_optTeamList, mem_optTeamList]
  · intro lc rc hint t
    have hshape := shape_of_valid hs hint
    rcases hshape with heq | ⟨lc', rc', heq, hne1, hne2, hk1, hk2⟩
    · cases heq
    have helc : lc' = lc := by
      injection heq with e1 e2
      injection e1 with e1
      exact e1.symm
    have herc : rc' = rc := by
      injection heq with e1 e2
      injection e2 with e2
      exact e2.symm
    rw [helc] at hk1
    rw [herc] at hk2
    unfold possible_winners
    rw [pwAux_internal (by simp) hint (by simp)]
    rw [List.mem_append]
    have hside : ∀ (team : Option Int) (c : Int), childE b g c →
        (t ∈ pwSide b [g] team (some c) ↔ sideContribution b team c t) := by
      intro team c hce
      cases team with
      | some a => simp [pwSide, sideContribution]
      | none =>
        simp only [pwSide, sideContribution]
        have hcongr : pwAux b [g] c = pwAux b [] c := by
          apply pwAux_congr (hgood c)
          · intro m hm hmem
            rw [List.mem_singleton] at hmem
            rw [hmem] at hm
            exact goodAt_no_cycle (hgood g) hce hm
          · intro m _ hmem
            simp at hmem
        rw [hcongr]
        exact Iff.rfl
    rw [hside _ lc (childE_intro hint (Or.inl rfl) hk1),
      hside _ rc (childE_intro hint (Or.inr rfl) hk2)]

theorem claim_C2_possible_winners_witness :
    (111 ∈ possible_winners bEight 0 ↔
      (gamesGet bEight 0).1 = some 111 ∨ (gamesGet bEight 0).2 = some 111)
    ∧ (555 ∈ possible_winners bEight 4 ↔
      sideContribution bEight (gamesGet bEight 4).1 0 555
        ∨ sideContribution bEight (gamesGet bEight 4).2 1 555) := by
  have hv : StructurallyValid bEight := by
    refine ⟨by decide, by decide, by decide, by decide, ?_⟩
    exact reachErrorsFuel_sound
      (show reachErrorsFuel 20 bEight = some [] from by decide)
  exact ⟨(claim_C2_possible_winners bEight hv 0 (by decide)).1 (by decide) 111,
    (claim_C2_possible_winners bEight hv 4 (by decide)).2 0 1 (by decide) 555⟩

theorem digitChar_toNat {d : Nat} (h : d < 10) : (digitChar' d).toNat = 48 + d := by
  interval_cases d <;> rfl

theorem isDigitChar_digitChar {d : Nat} (h : d < 10) :
    isDigitChar (digitChar' d) = true := by
  interval_cases d <;> rfl

theorem decDigitsVal_append (cs : List Char) (c : Char) :
    decDigitsVal (cs ++ [c]) = decDigitsVal cs * 10 + (c.toNat - 48) := by
  unfold decDigitsVal
  rw [List.foldl_append]
  rfl

theorem decDigitsVal_digits {ds : List Nat} (h : ∀ d ∈ ds, d < 10) :
    decDigitsVal (ds.reverse.map digitChar') = Nat.ofDigits 10 ds := by
  induction ds with
  | nil => rfl
  | cons d rest ih =>
    rw [List.reverse_cons, List.map_append]
    simp only [List.map_cons, List.map_nil]
    rw [decDigitsVal_append]
    rw [ih (fun x hx => h x (List.mem_cons_of_mem _ hx))]
    rw [digitChar_toNat (h d (List.mem_cons_self _ _))]
    rw [Nat.ofDigits_cons]
    omega

theorem parseNat_natToDecimal (n : Nat) :
    parseNatStr (natToDecimal n).data = some n := by
  unfold natToDecimal
  by_cases h0 : n = 0
  · rw [if_pos h0, h0]
    rfl
  · rw [if_neg h0]
    have hall : ∀ c ∈ (Nat.digits 10 n).reverse.map digitChar',
        isDigitChar c = true := by
      intro c hc
      rw [List.mem_map] at hc
      obtain ⟨d, hd, rfl⟩ := hc
      exact isDigitChar_digitChar
        (Nat.digits_lt_base (by norm_num) (List.mem_reverse.mp hd))
    have hne : (Nat.digits 10 n).reverse.map digitChar' ≠ [] := by
      simp [Nat.digits_ne_nil_iff_ne_zero, h0]
    show parseNatStr ((Nat.digits 10 n).reverse.map digitChar') = some n
    unfold parseNatStr
    rw [if_pos ⟨hne, List.all_eq_true.mpr hall⟩]
    rw [decDigitsVal_digits (fun d hd => Nat.digits_lt_base (by norm_num) hd)]
    rw [Nat.ofDigits_digits]

theorem parseIntStr_intToDecimal (i : Int) :
    parseIntStr (intToDecimal i) = some i := by
  unfold intToDecimal
  by_cases hneg : i < 0
  · rw [if_pos hneg]
    unfold parseIntStr
    have hdata : ("-" ++ natToDecimal (-i).toNat).data
        = '-' :: (natToDecimal (-i).toNat).data := by
      rw [String.data_append]
      rfl
    rw [hdata]
    simp only []
    rw [if_true, parseNat_natToDecimal]
    show some (-(((-i).toNat : Nat) : Int)) = some i
    congr 1
    rw [Int.toNat_of_nonneg (by omega)]
    omega
  · rw [if_neg hneg]
    unfold parseIntStr
    cases hd : (natToDecimal i.toNat).data with
    | nil =>
      exfalso
      have hp := parseNat_natToDecimal i.toNat
      rw [hd] at hp
      simp [parseNatStr] at hp
    | cons c rest =>
      have hp := parseNat_natToDecimal i.toNat
      rw [hd] at hp
      have hcd : isDigitChar c = true := by
        unfold parseNatStr at hp
        by_cases hcond : c :: rest ≠ [] ∧ (c :: rest).all isDigitChar = true
        · exact List.all_eq_true.mp hcond.2 c (by simp)
        · rw [if_neg hcond] at hp
          cases hp
      have hcne : ¬(c = '-') := by
        intro heq
        rw [heq] at hcd
        cases hcd
      dsimp only []
      rw [if_neg hcne, hp]
      show some ((i.toNat : Nat) : Int) = some i
      congr 1
      exact Int.toNat_of_nonneg (by omega)

theorem parseEntry_encode (it : Int × Slots) :
    parseEntry (encodeEntry it) = some it := by
  rcases it with ⟨k, l, r⟩
  unfold parseEntry encodeEntry
  simp only []
  rw [parseIntStr_intToDecimal]
  rfl

theorem mapM_parseEntry_encode (l : List (Int × Slots)) :
    (l.map encodeEntry).mapM parseEntry = some l := by
  induction l with
  | nil => rfl
  | cons it rest ih =>
    rw [List.map_cons, List.mapM_cons, parseEntry_encode, ih]
    rfl

/-- C6: serializing a validly constructed bracket and reparsing the
serialized record (including pydantic's re-validation) yields the very same
graph — equal `final_game`, topology map and assignment map — and this holds
across arbitrarily many round trips. -/
theorem claim_C6_serialization_roundtrip (b : BracketStructure)
    (hok : mkBracket b = .ok b) :
    roundTrip b = some b ∧ ∀ n : Nat, roundTripN n b = some b := by
  have hrt : roundTrip b = some b := by
    unfold roundTrip parseBracket to_json_dict
    simp only []
    rw [mapM_parseEntry_encode, mapM_parseEntry_encode]
    show (match mkBracket ⟨b.final_game, b.structure', b.games⟩ with
      | .ok b' => some b'
      | .error _ => none) = some b
    have heta : (⟨b.final_game, b.structure', b.games⟩ : BracketStructure) = b := rfl
    rw [heta, hok]
  refine ⟨hrt, ?_⟩
  intro n
  induction n with
  | zero => rfl
  | succ n ih =>
    rw [roundTripN, hrt]
    simpa using ih

theorem claim_C6_serialization_roundtrip_witness :
    roundTrip bEight = some bEight ∧ roundTripN 3 bEight = some bEight := by
  have hok : mkBracket bEight = .ok bEight := by
    rw [mkBracket_ok_iff]
    exact validateFuel_sound (show validateFuel 20 bEight = some [] from by decide)
  exact ⟨(claim_C6_serialization_roundtrip bEight hok).1,
    (claim_C6_serialization_roundtrip bEight hok).2 3⟩

theorem round_internal_eq {b : BracketStructure}
    (hgood : ∀ g, GoodAt b g) {g lc rc : Int}
    (hint : IsInternalAt b g lc rc) (hk1 : lc ∈ structKeys b)
    (hk2 : rc ∈ structKeys b) :
    game_round b g = 1 + max (game_round b lc) (game_round b rc) := by
  unfold game_round
  rw [roundAux_internal (by simp) hint (by simp)]
  have hside : ∀ c : Int, childE b g c →
      roundSide b [g] (some c) = roundAux b [] c := by
    intro c hce
    show roundAux b [g] c = roundAux b [] c
    apply roundAux_congr (hgood c)
    · intro m hm hmem
      rw [List.mem_singleton] at hmem
      rw [hmem] at hm
      exact goodAt_no_cycle (hgood g) hce hm
    · intro m _ hmem
      simp at hmem
  rw [hside lc (childE_intro hint (Or.inl rfl) hk1),
    hside rc (childE_intro hint (Or.inr rfl) hk2)]

/-- C7: on a validly constructed bracket, `game_round` is 0 on leaves and
`1 + max` of the feeder rounds on internal games, and the final game's round
equals the tree's height measured in edges from the deepest leaf: some
feeder chain of exactly that many edges reaches a leaf, and no feeder chain
to a leaf is longer. -/
theorem claim_C7_round_height (b : BracketStructure)
    (hok : mkBracket b = .ok b) :
    (∀ g ∈ structKeys b,
      (IsLeafAt b g → game_round b g = 0) ∧
      (∀ lc rc, IsInternalAt b g lc rc →
        game_round b g = 1 + max (game_round b lc) (game_round b rc))) ∧
    LeafDepth b b.final_game (game_round b b.final_game) ∧
    (∀ n, LeafDepth b b.final_game n → n ≤ game_round b b.final_game) := by
  have hnil := mkBracket_ok_iff.mp hok
  obtain ⟨hk, hs, hl, hf, ha, hr⟩ := preDeriv_parts (preDeriv_nil_of_validate hnil)
  have hgood := allGoodAt_of_valid hk hr
  have heqn : ∀ g ∈ structKeys b,
      (IsLeafAt b g → game_round b g = 0) ∧
      (∀ lc rc, IsInternalAt b g lc rc →
        game_round b g = 1 + max (game_round b lc) (game_round b rc)) := by
    intro g hg
    constructor
    · intro hleaf
      unfold game_round
      rw [roundAux_leaf (by simp) hleaf]
    · intro lc rc hint
      rcases shape_of_valid hs hint with heq | ⟨lc', rc', heq, _, _, hk1, hk2⟩
      · cases heq
      have helc : lc' = lc := by
        injection heq with e1 e2
        injection e1 with e1
        exact e1.symm
      have herc : rc' = rc := by
        injection heq with e1 e2
        injection e2 with e2
        exact e2.symm
      rw [helc] at hk1
      rw [herc] at hk2
      exact round_internal_eq hgood hint hk1 hk2
  refine ⟨heqn, ?_, ?_⟩
  · -- a deepest chain exists
    have hmain : ∀ g, GoodAt b g → g ∈ structKeys b →
        LeafDepth b g (game_round b g) := by
      intro g hg
      induction hg with
      | intro g hacc ih =>
        intro hgk
        obtain ⟨p, hp⟩ := Option.isSome_iff_exists.mp
          (lookupKey_isSome_iff.mpr hgk)
        rcases shape_of_valid hs hp with heq | ⟨lc, rc, heq, _, _, hk1, hk2⟩
        · rw [heq] at hp
          rw [(heqn g hgk).1 hp]
          exact LeafDepth.leaf hp
        · rw [heq] at hp
          have hint : IsInternalAt b g lc rc := hp
          have hel : childE b g lc := childE_intro hint (Or.inl rfl) hk1
          have her : childE b g rc := childE_intro hint (Or.inr rfl) hk2
          have hdl := ih lc hel hk1
          have hdr := ih rc her hk2
          rw [(heqn g hgk).2 lc rc hint]
          rcases Nat.le_total (game_round b lc) (game_round b rc) with hle | hle
          · rw [Nat.max_eq_right hle, Nat.add_comm]
            exact LeafDepth.stepR hint hdr
          · rw [Nat.max_eq_left hle, Nat.add_comm]
            exact LeafDepth.stepL hint hdl
    have hfk : b.final_game ∈ structKeys b := keyErrors_nil_iff.mp hk
    exact hmain b.final_game (hgood b.final_game) hfk
  · -- no chain is longer
    have hmain : ∀ g n, LeafDepth b g n → n ≤ game_round b g := by
      intro g n hd
      induction hd with
      | leaf hleaf => exact Nat.zero_le _
      | stepL hint hd ih =>
        rename_i g' lc rc n'
        have hgk : g' ∈ structKeys b := lookupKey_mem_keys hint
        rw [(heqn g' hgk).2 lc rc hint]
        have := Nat.le_max_left (game_round b lc) (game_round b rc)
        omega
      | stepR hint hd ih =>
        rename_i g' lc rc n'
        have hgk : g' ∈ structKeys b := lookupKey_mem_keys hint
        rw [(heqn g' hgk).2 lc rc hint]
        have := Nat.le_max_right (game_round b lc) (game_round b rc)
        omega
    exact hmain b.final_game

theorem claim_C7_round_height_witness :
    game_round bEight 6 = 1 + max (game_round bEight 4) (game_round bEight 5)
      ∧ LeafDepth bEight 6 (game_round bEight 6) := by
  have hok : mkBracket bEight = .ok bEight := by
    rw [mkBracket_ok_iff]
    exact validateFuel_sound (show validateFuel 20 bEight = some [] from by decide)
  exact ⟨((claim_C7_round_height bEight hok).1 6 (by decide)).2 4 5 (by decide),
    (claim_C7_round_height bEight hok).2.1⟩

/-! ### Parent structure of a valid bracket: unique parents, disjoint
sibling subtrees -/

theorem mem_parentsList {b : BracketStructure} {m p : Int} {s : Nat} :
    (p, s) ∈ parentsList b m ↔
      ∃ l r, (p, (l, r)) ∈ b.structure'
        ∧ ((s = 0 ∧ l = some m) ∨ (s = 1 ∧ r = some m)) := by
  unfold parentsList
  rw [List.mem_flatten]
  constructor
  · rintro ⟨chunk, hc, hmem⟩
    rw [List.mem_map] at hc
    obtain ⟨⟨q, l, r⟩, hit, rfl⟩ := hc
    rcases List.mem_append.mp hmem with h | h
    · split at h
      · rename_i h1
        rw [List.mem_singleton] at h
        injection h with hp hs
        exact ⟨l, r, by rw [hp]; exact hit, Or.inl ⟨hs, h1⟩⟩
      · simp at h
    · split at h
      · rename_i h2
        rw [List.mem_singleton] at h
        injection h with hp hs
        exact ⟨l, r, by rw [hp]; exact hit, Or.inr ⟨hs, h2⟩⟩
      · simp at h
  · rintro ⟨l, r, hit, hcase⟩
    refine ⟨(if l = some m then [(p, 0)] else [])
        ++ (if r = some m then [(p, 1)] else []), List.mem_map_of_mem _ hit, ?_⟩
    rcases hcase with ⟨rfl, rfl⟩ | ⟨rfl, rfl⟩
    · rw [if_pos rfl]
      simp
    · rw [if_pos rfl]
      simp

theorem no_self_slots {b : BracketStructure} (hs : shapeErrors b = []) :
    ∀ it ∈ b.structure', it.2.1 ≠ some it.1 ∧ it.2.2 ≠ some it.1 := by
  intro it hit
  have hie : itemErrors (structKeys b) it.1 it.2 = [] := by
    unfold shapeErrors at hs
    rw [List.flatten_eq_nil_iff] at hs
    exact hs _ (List.mem_map_of_mem _ hit)
  rcases it with ⟨gid, l, r⟩
  cases l with
  | none =>
    cases r with
    | none => simp
    | some rc => simp [itemErrors] at hie
  | some lc =>
    cases r with
    | none => simp [itemErrors] at hie
    | some rc =>
      simp only [itemErrors, List.append_eq_nil] at hie
      obtain ⟨h1a, _⟩ := childErrors_nil_iff.mp hie.1
      obtain ⟨h2a, _⟩ := childErrors_nil_iff.mp hie.2
      constructor
      · intro hc
        injection hc with hc
        exact h1a hc
      · intro hc
        injection hc with hc
        exact h2a hc

theorem parentsLen_aux (m : Int) :
    ∀ L : List (Int × Slots),
    (∀ it ∈ L, it.2.1 ≠ some it.1 ∧ it.2.2 ≠ some it.1) →
    ((L.map (fun it =>
      (if it.2.1 = some m then [(it.1, 0)] else [])
        ++ (if it.2.2 = some m then [(it.1, 1)] else []))).flatten).length
    = (L.map (fun it =>
        if it.1 = m then 0
        else (if it.2.1 = some m then 1 else 0)
          + (if it.2.2 = some m then 1 else 0))).sum := by
  intro L
  induction L with
  | nil => intro _; rfl
  | cons it tl ih =>
    intro hL
    rw [List.map_cons, List.map_cons, List.flatten_cons, List.length_append,
      List.sum_cons, ih (fun x hx => hL x (List.mem_cons_of_mem it hx))]
    congr 1
    by_cases hm : it.1 = m
    · rw [if_pos hm]
      have h1 : it.2.1 ≠ some m := by
        rw [← hm]
        exact (hL it (List.mem_cons_self it tl)).1
      have h2 : it.2.2 ≠ some m := by
        rw [← hm]
        exact (hL it (List.mem_cons_self it tl)).2
      rw [if_neg h1, if_neg h2]
      rfl
    · rw [if_neg hm]
      by_cases h1 : it.2.1 = some m <;> by_cases h2 : it.2.2 = some m <;>
        simp [h1, h2]

theorem parentsList_length {b : BracketStructure} (hs : shapeErrors b = [])
    (m : Int) : (parentsList b m).length = refCountOthers b m := by
  unfold parentsList refCountOthers
  exact parentsLen_aux m b.structure' (no_self_slots hs)

theorem parentsList_singleton {b : BracketStructure} (hs : shapeErrors b = [])
    (hf : fanInErrors b = []) {g : Int} (hg : g ∈ structKeys b)
    (hne : g ≠ b.final_game) : ∃ ps, parentsList b g = [ps] := by
  have h1 : (parentsList b g).length = 1 := by
    rw [parentsList_length hs, refCountOthers_eq_incoming hs hg]
    exact (fanIn_of_valid hf hg).2 hne
  exact List.length_eq_one.mp h1

theorem parentsList_final_nil {b : BracketStructure} (hs : shapeErrors b = [])
    (hf : fanInErrors b = []) (hfk : b.final_game ∈ structKeys b) :
    parentsList b b.final_game = [] := by
  have h1 : (parentsList b b.final_game).length = 0 := by
    rw [parentsList_length hs, refCountOthers_eq_incoming hs hfk]
    exact (fanIn_of_valid hf hfk).1 rfl
  exact List.eq_nil_of_length_eq_zero h1

theorem childE_key {b : BracketStructure} {p c : Int} (h : childE b p c) :
    c ∈ structKeys b := by
  unfold childE keyedChildren at h
  cases hl : lookupKey p b.structure' with
  | none =>
    rw [hl] at h
    simp at h
  | some lr =>
    rw [hl] at h
    rw [List.mem_filter] at h
    simpa using h.2

theorem childE_parent_mem {b : BracketStructure} {p c : Int}
    (h : childE b p c) : ∃ s, (p, s) ∈ parentsList b c := by
  unfold childE keyedChildren at h
  cases hl : lookupKey p b.structure' with
  | none =>
    rw [hl] at h
    simp at h
  | some lr =>
    rw [hl] at h
    rw [List.mem_filter] at h
    have hit := mem_of_lookupKey hl
    rcases lr with ⟨l, r⟩
    rcases List.mem_append.mp h.1 with hm | hm
    · refine ⟨0, mem_parentsList.mpr ⟨l, r, hit, Or.inl ⟨rfl, ?_⟩⟩⟩
      cases l <;> simp_all
    · refine ⟨1, mem_parentsList.mpr ⟨l, r, hit, Or.inr ⟨rfl, ?_⟩⟩⟩
      cases r <;> simp_all

theorem childE_ne_final {b : BracketStructure} (hs : shapeErrors b = [])
    (hf : fanInErrors b = []) {p c : Int} (hp : childE b p c) :
    c ≠ b.final_game := by
  intro hcf
  obtain ⟨s, hmem⟩ := childE_parent_mem hp
  rw [hcf] at hmem
  rw [parentsList_final_nil hs hf (by rw [← hcf]; exact childE_key hp)] at hmem
  simp at hmem

theorem parent_unique {b : BracketStructure} (hs : shapeErrors b = [])
    (hf : fanInErrors b = []) {c p q : Int}
    (hp : childE b p c) (hq : childE b q c) : p = q := by
  have hck := childE_key hp
  have hcf : c ≠ b.final_game := childE_ne_final hs hf hp
  obtain ⟨ps, hsing⟩ := parentsList_singleton hs hf hck hcf
  obtain ⟨s1, h1⟩ := childE_parent_mem hp
  obtain ⟨s2, h2⟩ := childE_parent_mem hq
  rw [hsing, List.mem_singleton] at h1 h2
  have h3 : (p, s1) = (q, s2) := h1.trans h2.symm
  exact congrArg Prod.fst h3

theorem internal_children_ne {b : BracketStructure} (hs : shapeErrors b = [])
    (hf : fanInErrors b = []) {g lc rc : Int} (hint : IsInternalAt b g lc rc)
    (hrk : rc ∈ structKeys b) : lc ≠ rc := by
  intro he
  have hit : (g, (some lc, some rc)) ∈ b.structure' := mem_of_lookupKey hint
  have h0 : (g, 0) ∈ parentsList b rc :=
    mem_parentsList.mpr ⟨some lc, some rc, hit, Or.inl ⟨rfl, by rw [he]⟩⟩
  have h1 : (g, 1) ∈ parentsList b rc :=
    mem_parentsList.mpr ⟨some lc, some rc, hit, Or.inr ⟨rfl, rfl⟩⟩
  have hce : childE b g rc := childE_intro hint (Or.inr rfl) hrk
  obtain ⟨ps, hsing⟩ := parentsList_singleton hs hf hrk (childE_ne_final hs hf hce)
  rw [hsing, List.mem_singleton] at h0 h1
  have h3 : ((g, 0) : Int × Nat) = (g, 1) := h0.trans h1.symm
  injection h3 with _ h3
  omega

theorem insub_chain {b : BracketStructure}
    (hpar : ∀ c p q, childE b p c → childE b q c → p = q) {x m : Int}
    (hxm : InSub b x m) : ∀ y, InSub b y m → InSub b x y ∨ InSub b y x := by
  induction hxm with
  | refl => exact fun y hy => Or.inr hy
  | tail h1 h2 ih =>
    rename_i p m'
    intro y hy
    rcases Relation.ReflTransGen.cases_tail hy with heq | ⟨q, hyq, hq⟩
    · left
      rw [← heq]
      exact Relation.ReflTransGen.tail h1 h2
    · have hpq := hpar m' p q h2 hq
      rw [← hpq] at hyq
      exact ih y hyq

theorem subtree_disjoint {b : BracketStructure} (hs : shapeErrors b = [])
    (hf : fanInErrors b = []) (hgood : ∀ x, GoodAt b x)
    {g lc rc : Int} (hint : IsInternalAt b g lc rc)
    (hlk : lc ∈ structKeys b) (hrk : rc ∈ structKeys b) :
    ∀ m, InSub b lc m → InSub b rc m → False := by
  intro m h1 h2
  have hpar : ∀ c p q, childE b p c → childE b q c → p = q :=
    fun c p q hp hq => parent_unique hs hf hp hq
  have hcel : childE b g lc := childE_intro hint (Or.inl rfl) hlk
  have hcer : childE b g rc := childE_intro hint (Or.inr rfl) hrk
  have hne : lc ≠ rc := internal_children_ne hs hf hint hrk
  rcases insub_chain hpar h1 rc h2 with hlr | hrl
  · rcases Relation.ReflTransGen.cases_tail hlr with heq | ⟨q, hlq, hq⟩
    · exact hne heq.symm
    · have hqg : q = g := hpar rc q g hq hcer
      rw [hqg] at hlq
      exact goodAt_no_cycle (hgood g) hcel hlq
  · rcases Relation.ReflTransGen.cases_tail hrl with heq | ⟨q, hrq, hq⟩
    · exact hne heq
    · have hqg : q = g := hpar lc q g hq hcel
      rw [hqg] at hrq
      exact goodAt_no_cycle (hgood g) hcer hrq

theorem updCenter_self (f : Int → Option Nat) (g : Int) (v : Nat) :
    updCenter f g v g = some v := by
  unfold updCenter
  rw [if_pos rfl]

theorem updCenter_ne (f : Int → Option Nat) {g m : Int} (v : Nat) (h : m ≠ g) :
    updCenter f g v m = f m := by
  unfold updCenter
  rw [if_neg h]

theorem updSlot_eq (f : Int → Nat → Option Nat) (g : Int) (s v : Nat) :
    updSlot f g s v g s = some v := by
  unfold updSlot
  rw [if_pos ⟨rfl, rfl⟩]

theorem updSlot_ne (f : Int → Nat → Option Nat) {g : Int} {s : Nat} (v : Nat)
    {m : Int} {s' : Nat} (h : ¬(m = g ∧ s' = s)) :
    updSlot f g s v m s' = f m s' := by
  unfold updSlot
  rw [if_neg h]

theorem leavesUnder_insub {b : BracketStructure} {g : Int} (hg : GoodAt b g) :
    ∀ v x, x ∈ leavesUnder b v g → InSub b g x := by
  induction hg with
  | intro g hacc ih =>
    intro v x hx
    by_cases hv : g ∈ v
    · rw [leavesUnder_cycle hv] at hx
      simp at hx
    cases hl : lookupKey g b.structure' with
    | none =>
      rw [leavesUnder_nokey hv hl] at hx
      simp at hx
    | some p =>
      rcases p with ⟨l, r⟩
      by_cases hnn : l = none ∧ r = none
      · obtain ⟨rfl, rfl⟩ := hnn
        rw [leavesUnder_leaf hv hl, List.mem_singleton] at hx
        rw [hx]
        exact Relation.ReflTransGen.refl
      · rw [leavesUnder_internal hv hl hnn] at hx
        have hside : ∀ c : Option Int, (c = l ∨ c = r) →
            x ∈ leavesSide b (g :: v) c → InSub b g x := by
          intro c hcs hm
          cases c with
          | none => simp [leavesSide] at hm
          | some c' =>
            have hm' : x ∈ leavesUnder b (g :: v) c' := hm
            by_cases hck : c' ∈ structKeys b
            · have hce : childE b g c' := by
                refine childE_intro hl ?_ hck
                rcases hcs with rfl | rfl
                · exact Or.inl rfl
                · exact Or.inr rfl
              exact Relation.ReflTransGen.head hce (ih c' hce (g :: v) x hm')
            · rw [leavesUnder_nil_of_nokey (lookupKey_eq_none_iff.mpr hck)] at hm'
              simp at hm'
        rcases List.mem_append.mp hx with hm | hm
        · exact hside l (Or.inl rfl) hm
        · exact hside r (Or.inr rfl) hm

theorem assign_frame {b : BracketStructure} {g : Int} (hg : GoodAt b g) :
    ∀ v st m, ¬ InSub b g m →
      (∀ s, (assign_positions b v g st).slotY m s = st.slotY m s)
        ∧ (assign_positions b v g st).centerY m = st.centerY m := by
  induction hg with
  | intro g hacc ih =>
    intro v st m hm
    have hmg : m ≠ g := fun he =>
      hm (by rw [he]; exact Relation.ReflTransGen.refl)
    by_cases hv : g ∈ v
    · rw [assign_cycle hv]
      exact ⟨fun s => rfl, rfl⟩
    cases hl : lookupKey g b.structure' with
    | none =>
      rw [assign_nokey hv hl]
      exact ⟨fun s => rfl, rfl⟩
    | some p =>
      rcases p with ⟨l, r⟩
      by_cases hnn : l = none ∧ r = none
      · obtain ⟨rfl, rfl⟩ := hnn
        rw [assign_leaf hv hl]
        refine ⟨fun s => ?_, ?_⟩
        · show updSlot (updSlot st.slotY g 0 (st.leafCursor + 1)) g 1
              (st.leafCursor + 3) m s = st.slotY m s
          unfold updSlot
          rw [if_neg (fun h => hmg h.1), if_neg (fun h => hmg h.1)]
        · show updCenter st.centerY g (st.leafCursor + 2) m = st.centerY m
          unfold updCenter
          rw [if_neg hmg]
      · rw [assign_internal hv hl hnn]
        dsimp only []
        have hstep : ∀ (oc : Option Int),
            (∀ c, oc = some c → c ∈ structKeys b → childE b g c) →
            ∀ st0 : LayoutState,
            (∀ s, st0.slotY m s = st.slotY m s) ∧ st0.centerY m = st.centerY m →
            (∀ s, (apChild b (g :: v) oc st0).slotY m s = st.slotY m s)
              ∧ (apChild b (g :: v) oc st0).centerY m = st.centerY m := by
          intro oc hoc st0 hfs
          cases oc with
          | none => exact hfs
          | some c =>
            have hA : apChild b (g :: v) (some c) st0
                = assign_positions b (g :: v) c st0 := rfl
            by_cases hck : c ∈ structKeys b
            · have hce := hoc c rfl hck
              have hmc : ¬ InSub b c m := fun hcm =>
                hm (Relation.ReflTransGen.head hce hcm)
              have hi := ih c hce (g :: v) st0 m hmc
              rw [hA]
              exact ⟨fun s => (hi.1 s).trans (hfs.1 s), hi.2.trans hfs.2⟩
            · rw [hA]
              by_cases hcv : c ∈ g :: v
              · rw [assign_cycle hcv]
                exact hfs
              · rw [assign_nokey hcv (lookupKey_eq_none_iff.mpr hck)]
                exact hfs
        have h1 := hstep l (fun c hc hck => childE_intro hl (Or.inl hc) hck)
          st ⟨fun s => rfl, rfl⟩
        have h2 := hstep r (fun c hc hck => childE_intro hl (Or.inr hc) hck)
          (apChild b (g :: v) l st) h1
        refine ⟨fun s => ?_, ?_⟩
        · show updSlot (updSlot _ g 0 _) g 1 _ m s = st.slotY m s
          unfold updSlot
          rw [if_neg (fun h => hmg h.1), if_neg (fun h => hmg h.1)]
          exact h2.1 s
        · show updCenter _ g _ m = st.centerY m
          unfold updCenter
          rw [if_neg hmg]
          exact h2.2

theorem assign_center_some {b : BracketStructure} {v : List Int} {g : Int}
    {st : LayoutState} (hv : g ∉ v) {p : Slots}
    (hl : lookupKey g b.structure' = some p) :
    ∃ c, (assign_positions b v g st).centerY g = some c := by
  rcases p with ⟨l, r⟩
  by_cases hnn : l = none ∧ r = none
  · obtain ⟨rfl, rfl⟩ := hnn
    rw [assign_leaf hv hl]
    refine ⟨st.leafCursor + 2, ?_⟩
    show updCenter st.centerY g (st.leafCursor + 2) g = _
    unfold updCenter
    rw [if_pos rfl]
  · rw [assign_internal hv hl hnn]
    dsimp only []
    exact ⟨_, updCenter_self _ _ _⟩

theorem dfs_visited_insub {b : BracketStructure} (hgood : ∀ x, GoodAt b x)
    {n : Int} : ∀ (v : List Int) (acc : DfsAcc),
    ∀ m ∈ (dfs b v n acc).visited, m ∈ acc.visited ∨ InSub b n m := by
  have hg := hgood n
  clear hgood
  induction hg with
  | intro n hacc ih =>
    intro v acc m hm
    by_cases hv : n ∈ v
    · rw [dfs_cycle hv] at hm
      exact Or.inl hm
    by_cases hvis : n ∈ acc.visited
    · rw [dfs_skip hv hvis] at hm
      exact Or.inl hm
    cases hl : lookupKey n b.structure' with
    | none =>
      rw [dfs_nokey hv hvis hl] at hm
      exact Or.inl hm
    | some p =>
      rcases p with ⟨l, r⟩
      rw [dfs_main hv hvis hl] at hm
      have hstep : ∀ (oc : Option Int),
          (∀ c, oc = some c → c ∈ structKeys b → childE b n c) →
          ∀ (acc0 : DfsAcc) (m' : Int),
          m' ∈ (dfsChild b (n :: v) oc acc0).visited →
            m' ∈ acc0.visited ∨ InSub b n m' := by
        intro oc hoc acc0 m' hm'
        cases oc with
        | none => exact Or.inl hm'
        | some c =>
          have hA : dfsChild b (n :: v) (some c) acc0
              = if (lookupKey c b.structure').isSome
                then dfs b (n :: v) c acc0 else acc0 := rfl
          rw [hA] at hm'
          by_cases hks : (lookupKey c b.structure').isSome
          · rw [if_pos hks] at hm'
            have hck : c ∈ structKeys b := by
              obtain ⟨q, hq⟩ := Option.isSome_iff_exists.mp hks
              exact lookupKey_mem_keys hq
            have hce := hoc c rfl hck
            rcases ih c hce (n :: v) acc0 m' hm' with h | h
            · exact Or.inl h
            · exact Or.inr (Relation.ReflTransGen.head hce h)
          · rw [if_neg hks] at hm'
            exact Or.inl hm'
      rcases List.mem_append.mp hm with hm' | hm'
      · rcases hstep r (fun c hc hck => childE_intro hl (Or.inr hc) hck)
            (dfsChild b (n :: v) l acc) m hm' with h1 | h1
        · rcases hstep l (fun c hc hck => childE_intro hl (Or.inl hc) hck)
              acc m h1 with h2 | h2
          · exact Or.inl h2
          · exact Or.inr h2
        · exact Or.inr h1
      · rw [List.mem_singleton] at hm'
        rw [hm']
        exact Or.inr Relation.ReflTransGen.refl

theorem mem_of_idx {α : Type} {l : List α} {i : Nat} {x : α}
    (h : l[i]? = some x) : x ∈ l := by
  obtain ⟨hlt, hx⟩ := List.getElem?_eq_some.mp h
  rw [← hx]
  exact List.getElem_mem _

/-- The layout invariant of `assign_positions` on a shape-valid bracket with
disjoint sibling subtrees: the cursor advances by five rows per leaf of the
processed subtree, the `i`-th leaf (in traversal order) gets slot rows
`cursor + 5i + 1` and `cursor + 5i + 3` and center row `cursor + 5i + 2`,
and every internal node of the subtree gets its children's center rows as
its slot rows and the biased midpoint as its center row. -/
theorem assign_spec {b : BracketStructure} (hs : shapeErrors b = [])
    (hgood : ∀ x, GoodAt b x)
    (hdisj : ∀ p lc rc, IsInternalAt b p lc rc → lc ∈ structKeys b →
      rc ∈ structKeys b → ∀ m, InSub b lc m → InSub b rc m → False)
    {g : Int} (hg : GoodAt b g) :
    ∀ v st, g ∈ structKeys b → (∀ m, InSub b g m → m ∉ v) →
    ((assign_positions b v g st).leafCursor
        = st.leafCursor + 5 * (leavesUnder b v g).length)
    ∧ (∀ (i : Nat) (x : Int), (leavesUnder b v g)[i]? = some x →
        (assign_positions b v g st).slotY x 0 = some (st.leafCursor + 5 * i + 1)
        ∧ (assign_positions b v g st).slotY x 1 = some (st.leafCursor + 5 * i + 3)
        ∧ (assign_positions b v g st).centerY x = some (st.leafCursor + 5 * i + 2))
    ∧ (∀ m lc rc, InSub b g m → IsInternalAt b m lc rc →
        ∃ cl cr, (assign_positions b v g st).centerY lc = some cl
          ∧ (assign_positions b v g st).centerY rc = some cr
          ∧ (assign_positions b v g st).slotY m 0 = some cl
          ∧ (assign_positions b v g st).slotY m 1 = some cr
          ∧ (assign_positions b v g st).centerY m
              = some ((cl + cr + 1) / 2)) := by
  induction hg with
  | intro g hacc ih =>
    intro v st hgk hv
    have hgv : g ∉ v := hv g Relation.ReflTransGen.refl
    obtain ⟨p, hl⟩ := Option.isSome_iff_exists.mp (lookupKey_isSome_iff.mpr hgk)
    rcases shape_of_valid hs hl with hshape | ⟨lc, rc, hshape, hlne, hrne, hlk, hrk⟩
    · -- leaf node
      rw [hshape] at hl
      have hL : leavesUnder b v g = [g] := leavesUnder_leaf hgv hl
      rw [assign_leaf hgv hl, hL]
      refine ⟨by simp, ?_, ?_⟩
      · intro i x hix
        cases i with
        | zero =>
          have hx : x = g := by
            simp at hix
            exact hix.symm
          rw [hx]
          refine ⟨?_, ?_, ?_⟩
          · show updSlot (updSlot st.slotY g 0 (st.leafCursor + 1)) g 1
                (st.leafCursor + 3) g 0 = _
            rw [updSlot_ne _ _ (fun h => absurd h.2 (by decide)), updSlot_eq]
          · show updSlot (updSlot st.slotY g 0 (st.leafCursor + 1)) g 1
                (st.leafCursor + 3) g 1 = _
            rw [updSlot_eq]
          · show updCenter st.centerY g (st.leafCursor + 2) g = _
            rw [updCenter_self]
        | succ n => simp at hix
      · intro m lc rc hm hint
        have hmg : m = g := by
          rcases Relation.ReflTransGen.cases_head hm with heq | ⟨c, hc, _⟩
          · exact heq.symm
          · exfalso
            unfold childE keyedChildren at hc
            rw [hl] at hc
            simp at hc
        rw [hmg] at hint
        have hbad : some ((none : Option Int), (none : Option Int))
            = some (some lc, some rc) := hl.symm.trans hint
        injection hbad with hbad
        injection hbad with hbad1 _
        cases hbad1
    · -- internal node
      rw [hshape] at hl
      have hint : IsInternalAt b g lc rc := hl
      have hcel : childE b g lc := childE_intro hl (Or.inl rfl) hlk
      have hcer : childE b g rc := childE_intro hl (Or.inr rfl) hrk
      have hnn : ¬((some lc : Option Int) = none ∧ (some rc : Option Int) = none) :=
        fun h => Option.noConfusion h.1
      have hgl : ¬ InSub b lc g := fun h => goodAt_no_cycle (hgood g) hcel h
      have hgr : ¬ InSub b rc g := fun h => goodAt_no_cycle (hgood g) hcer h
      have hvl : ∀ m, InSub b lc m → m ∉ g :: v := by
        intro m hm hmem
        rcases List.mem_cons.mp hmem with heq | hmem'
        · rw [heq] at hm
          exact hgl hm
        · exact hv m (Relation.ReflTransGen.head hcel hm) hmem'
      have hvr : ∀ m, InSub b rc m → m ∉ g :: v := by
        intro m hm hmem
        rcases List.mem_cons.mp hmem with heq | hmem'
        · rw [heq] at hm
          exact hgr hm
        · exact hv m (Relation.ReflTransGen.head hcer hm) hmem'
      have hDlr : ∀ m, InSub b lc m → ¬ InSub b rc m :=
        fun m h1 h2 => hdisj g lc rc hint hlk hrk m h1 h2
      have hLeq : leavesUnder b v g
          = leavesUnder b (g :: v) lc ++ leavesUnder b (g :: v) rc := by
        rw [leavesUnder_internal hgv hl hnn]
        rfl
      have IHl := ih lc hcel (g :: v) st hlk hvl
      have IHr := ih rc hcer (g :: v) (assign_positions b (g :: v) lc st) hrk hvr
      have hframe : ∀ m, ¬ InSub b rc m →
          (∀ s, (assign_positions b (g :: v) rc
              (assign_positions b (g :: v) lc st)).slotY m s
            = (assign_positions b (g :: v) lc st).slotY m s)
          ∧ (assign_positions b (g :: v) rc
              (assign_positions b (g :: v) lc st)).centerY m
            = (assign_positions b (g :: v) lc st).centerY m :=
        fun m hm => assign_frame (hgood rc) (g :: v)
          (assign_positions b (g :: v) lc st) m hm
      obtain ⟨pl, hpl⟩ := Option.isSome_iff_exists.mp (lookupKey_isSome_iff.mpr hlk)
      obtain ⟨pr, hpr⟩ := Option.isSome_iff_exists.mp (lookupKey_isSome_iff.mpr hrk)
      have hcl1 : ∃ c, (assign_positions b (g :: v) lc st).centerY lc = some c :=
        assign_center_some (hvl lc Relation.ReflTransGen.refl) hpl
      obtain ⟨cl, hcl1⟩ := hcl1
      have hcr1 : ∃ c, (assign_positions b (g :: v) rc
          (assign_positions b (g :: v) lc st)).centerY rc = some c :=
        assign_center_some (hvr rc Relation.ReflTransGen.refl) hpr
      obtain ⟨cr, hcr1⟩ := hcr1
      rw [assign_internal hgv hl hnn, hLeq]
      dsimp only []
      rw [show apChild b (g :: v) (some lc) st
        = assign_positions b (g :: v) lc st from rfl]
      rw [show apChild b (g :: v) (some rc) (assign_positions b (g :: v) lc st)
        = assign_positions b (g :: v) rc (assign_positions b (g :: v) lc st)
        from rfl]
      set st1 := assign_positions b (g :: v) lc st with hst1
      set st2 := assign_positions b (g :: v) rc st1 with hst2
      set Ll := leavesUnder b (g :: v) lc with hLl
      set Lr := leavesUnder b (g :: v) rc with hLr
      have hclst2 : st2.centerY lc = some cl :=
        (hframe lc (hDlr lc Relation.ReflTransGen.refl)).2.trans hcl1
      have hCL : centerOf st2 (some lc) = cl := by
        show (st2.centerY lc).getD 0 = cl
        rw [hclst2]
        rfl
      have hCR : centerOf st2 (some rc) = cr := by
        show (st2.centerY rc).getD 0 = cr
        rw [hcr1]
        rfl
      rw [hCL, hCR]
      have hmemLl : ∀ x ∈ Ll, InSub b lc x :=
        fun x hx => leavesUnder_insub (hgood lc) (g :: v) x hx
      have hmemLr : ∀ x ∈ Lr, InSub b rc x :=
        fun x hx => leavesUnder_insub (hgood rc) (g :: v) x hx
      refine ⟨?_, ?_, ?_⟩
      · -- cursor
        show st2.leafCursor = st.leafCursor + 5 * (Ll ++ Lr).length
        rw [IHr.1, IHl.1, List.length_append]
        omega
      · -- leaf positions
        intro i x hix
        by_cases hil : i < Ll.length
        · rw [List.getElem?_append_left hil] at hix
          have hxmem : x ∈ Ll := mem_of_idx hix
          have hxsub : InSub b lc x := hmemLl x hxmem
          have hxnr : ¬ InSub b rc x := hDlr x hxsub
          have hxg : x ≠ g := fun he => hgl (by rw [← he]; exact hxsub)
          obtain ⟨hp0, hp1, hpc⟩ := IHl.2.1 i x hix
          refine ⟨?_, ?_, ?_⟩
          · rw [updSlot_ne _ _ (fun h => hxg h.1),
              updSlot_ne _ _ (fun h => hxg h.1), (hframe x hxnr).1 0]
            exact hp0
          · rw [updSlot_ne _ _ (fun h => hxg h.1),
              updSlot_ne _ _ (fun h => hxg h.1), (hframe x hxnr).1 1]
            exact hp1
          · rw [updCenter_ne _ _ hxg, (hframe x hxnr).2]
            exact hpc
        · have hile := Nat.le_of_not_lt hil
          rw [List.getElem?_append_right hile] at hix
          have hxmem : x ∈ Lr := mem_of_idx hix
          have hxsub : InSub b rc x := hmemLr x hxmem
          have hxg : x ≠ g := fun he => hgr (by rw [← he]; exact hxsub)
          obtain ⟨hp0, hp1, hpc⟩ := IHr.2.1 (i - Ll.length) x hix
          rw [IHl.1] at hp0 hp1 hpc
          refine ⟨?_, ?_, ?_⟩
          · rw [updSlot_ne _ _ (fun h => hxg h.1),
              updSlot_ne _ _ (fun h => hxg h.1), hp0]
            exact congrArg some (by omega)
          · rw [updSlot_ne _ _ (fun h => hxg h.1),
              updSlot_ne _ _ (fun h => hxg h.1), hp1]
            exact congrArg some (by omega)
          · rw [updCenter_ne _ _ hxg, hpc]
            exact congrArg some (by omega)
      · -- internal equations
        intro m lc' rc' hm hint'
        rcases Relation.ReflTransGen.cases_head hm with heq | ⟨c, hc, hcm⟩
        · -- m = g
          have hmg : m = g := heq.symm
          rw [hmg] at hint'
          have hpair : some ((some lc : Option Int), (some rc : Option Int))
              = some (some lc', some rc') := hl.symm.trans hint'
          injection hpair with hpair
          injection hpair with hpe1 hpe2
          injection hpe1 with hpe1
          injection hpe2 with hpe2
          rw [hmg, ← hpe1, ← hpe2]
          refine ⟨cl, cr, ?_, ?_, ?_, ?_, ?_⟩
          · rw [updCenter_ne _ _ hlne]
            exact hclst2
          · rw [updCenter_ne _ _ hrne]
            exact hcr1
          · rw [updSlot_ne _ _ (fun h => absurd h.2 (by decide)), updSlot_eq]
          · rw [updSlot_eq]
          · rw [updCenter_self]
        · -- m below one of the children
          have hcc := childE_cases hl hc
          have hsplit : c = lc ∨ c = rc := by
            rcases hcc.1 with h' | h'
            · left
              injection h' with h'
              exact h'.symm
            · right
              injection h' with h'
              exact h'.symm
          -- children of m are keys
          have hshape' := shape_of_valid hs hint'
          rcases hshape' with habs | ⟨lc2, rc2, heq2, hl2ne, hr2ne, hk1, hk2⟩
          · injection habs with habs1 _
            cases habs1
          · have he1 : lc2 = lc' := by
              injection heq2 with e1 e2
              injection e1 with e1
              exact e1.symm
            have he2 : rc2 = rc' := by
              injection heq2 with e1 e2
              injection e2 with e2
              exact e2.symm
            rw [he1] at hk1 hl2ne
            rw [he2] at hk2 hr2ne
            have hcml : childE b m lc' := childE_intro hint' (Or.inl rfl) hk1
            have hcmr : childE b m rc' := childE_intro hint' (Or.inr rfl) hk2
            rcases hsplit with heqc | heqc
            · -- subtree of lc
              have hmlc : InSub b lc m := by
                rw [← heqc]
                exact hcm
              have hl'lc : InSub b lc lc' := Relation.ReflTransGen.tail hmlc hcml
              have hr'lc : InSub b lc rc' := Relation.ReflTransGen.tail hmlc hcmr
              have hmne : m ≠ g := fun he => hgl (by rw [← he]; exact hmlc)
              have hl'ne : lc' ≠ g := fun he => hgl (by rw [← he]; exact hl'lc)
              have hr'ne : rc' ≠ g := fun he => hgl (by rw [← he]; exact hr'lc)
              obtain ⟨cl', cr', hq1, hq2, hq3, hq4, hq5⟩ :=
                IHl.2.2 m lc' rc' hmlc hint'
              refine ⟨cl', cr', ?_, ?_, ?_, ?_, ?_⟩
              · rw [updCenter_ne _ _ hl'ne, (hframe lc' (hDlr lc' hl'lc)).2]
                exact hq1
              · rw [updCenter_ne _ _ hr'ne, (hframe rc' (hDlr rc' hr'lc)).2]
                exact hq2
              · rw [updSlot_ne _ _ (fun h => hmne h.1),
                  updSlot_ne _ _ (fun h => hmne h.1),
                  (hframe m (hDlr m hmlc)).1 0]
                exact hq3
              · rw [updSlot_ne _ _ (fun h => hmne h.1),
                  updSlot_ne _ _ (fun h => hmne h.1),
                  (hframe m (hDlr m hmlc)).1 1]
                exact hq4
              · rw [updCenter_ne _ _ hmne, (hframe m (hDlr m hmlc)).2]
                exact hq5
            · -- subtree of rc
              have hmrc : InSub b rc m := by
                rw [← heqc]
                exact hcm
              have hl'rc : InSub b rc lc' := Relation.ReflTransGen.tail hmrc hcml
              have hr'rc : InSub b rc rc' := Relation.ReflTransGen.tail hmrc hcmr
              have hmne : m ≠ g := fun he => hgr (by rw [← he]; exact hmrc)
              have hl'ne : lc' ≠ g := fun he => hgr (by rw [← he]; exact hl'rc)
              have hr'ne : rc' ≠ g := fun he => hgr (by rw [← he]; exact hr'rc)
              obtain ⟨cl', cr', hq1, hq2, hq3, hq4, hq5⟩ :=
                IHr.2.2 m lc' rc' hmrc hint'
              refine ⟨cl', cr', ?_, ?_, ?_, ?_, ?_⟩
              · rw [updCenter_ne _ _ hl'ne]
                exact hq1
              · rw [updCenter_ne _ _ hr'ne]
                exact hq2
              · rw [updSlot_ne _ _ (fun h => hmne h.1),
                  updSlot_ne _ _ (fun h => hmne h.1)]
                exact hq3
              · rw [updSlot_ne _ _ (fun h => hmne h.1),
                  updSlot_ne _ _ (fun h => hmne h.1)]
                exact hq4
              · rw [updCenter_ne _ _ hmne]
                exact hq5

/-- Full layout characterization of a validly constructed bracket: leaf
bands in traversal order from the final game (5 rows each, slots at band
rows 1 and 3, center at band row 2), and internal games taking their
children's centers as slot rows with the biased midpoint as center. -/
theorem layout_spec {b : BracketStructure} (hok : mkBracket b = .ok b) :
    ((layoutRun b).leafCursor = 5 * (leavesUnder b [] b.final_game).length)
    ∧ (∀ (i : Nat) (x : Int), (leavesUnder b [] b.final_game)[i]? = some x →
        (layoutRun b).slotY x 0 = some (5 * i + 1)
        ∧ (layoutRun b).slotY x 1 = some (5 * i + 3)
        ∧ (layoutRun b).centerY x = some (5 * i + 2))
    ∧ (∀ m lc rc, IsInternalAt b m lc rc →
        ∃ cl cr, (layoutRun b).centerY lc = some cl
          ∧ (layoutRun b).centerY rc = some cr
          ∧ (layoutRun b).slotY m 0 = some cl
          ∧ (layoutRun b).slotY m 1 = some cr
          ∧ (layoutRun b).centerY m = some ((cl + cr + 1) / 2)) := by
  have hnil := mkBracket_ok_iff.mp hok
  obtain ⟨hk, hs, hle, hf, ha, hr⟩ := preDeriv_parts (preDeriv_nil_of_validate hnil)
  have hgood := allGoodAt_of_valid hk hr
  have hfk : b.final_game ∈ structKeys b := keyErrors_nil_iff.mp hk
  have hdisj : ∀ p lc rc, IsInternalAt b p lc rc → lc ∈ structKeys b →
      rc ∈ structKeys b → ∀ m, InSub b lc m → InSub b rc m → False :=
    fun p lc rc hint hlk hrk => subtree_disjoint hs hf hgood hint hlk hrk
  have hmain := assign_spec hs hgood hdisj (hgood b.final_game) [] emptyLayout
    hfk (fun m _ => List.not_mem_nil m)
  have hE : emptyLayout.leafCursor = 0 := rfl
  have hreach : ∀ m ∈ structKeys b, InSub b b.final_game m := by
    intro m hm
    have hvis : m ∈ (dfs b [] b.final_game ⟨[], []⟩).visited :=
      (reach_of_valid hfk hr).2 m hm
    rcases dfs_visited_insub hgood [] ⟨[], []⟩ m hvis with h | h
    · simp at h
    · exact h
  refine ⟨?_, ?_, ?_⟩
  · have h := hmain.1
    rw [hE] at h
    exact h.trans (by omega)
  · intro i x hix
    obtain ⟨h0, h1, h2⟩ := hmain.2.1 i x hix
    rw [hE] at h0 h1 h2
    exact ⟨h0.trans (congrArg some (by omega)),
      h1.trans (congrArg some (by omega)),
      h2.trans (congrArg some (by omega))⟩
  · intro m lc rc hint
    exact hmain.2.2 m lc rc (hreach m (lookupKey_mem_keys hint)) hint

/-- The statement of claim C8 as the spec words it, in its leaf-row part:
leaves are placed in traversal order with the i-th leaf's band starting at
row 5i, its slot rows at the band's row+1 and row+3, and its center row at
the band's row+1. -/
def c8Statement : Prop :=
  ∀ b : BracketStructure, mkBracket b = .ok b →
    ∀ (i : Nat) (x : Int), (leavesUnder b [] b.final_game)[i]? = some x →
      (layoutRun b).slotY x 0 = some (5 * i + 1)
      ∧ (layoutRun b).slotY x 1 = some (5 * i + 3)
      ∧ (layoutRun b).centerY x = some (5 * i + 1)

theorem claim_C8_counterexample : ¬ c8Statement := by
  intro hS
  have hok : mkBracket bEight = .ok bEight := by
    rw [mkBracket_ok_iff]
    exact validateFuel_sound (show validateFuel 20 bEight = some [] from by decide)
  have hL : leavesUnder bEight [] bEight.final_game = [0, 1, 2, 3] :=
    leavesFuel_sound
      (show leavesFuel 20 bEight [] 6 = some [0, 1, 2, 3] from by decide)
  have hix : (leavesUnder bEight [] bEight.final_game)[0]? = some 0 := by
    rw [hL]
    rfl
  have hfuel : (assignFuel 20 bEight [] 6 emptyLayout).map (fun st => st.centerY 0)
      = some (some 2) := by decide
  have hcY : (layoutRun bEight).centerY 0 = some 2 := by
    cases hA : assignFuel 20 bEight [] 6 emptyLayout with
    | none =>
      rw [hA] at hfuel
      cases hfuel
    | some stA =>
      rw [hA] at hfuel
      simp only [Option.map] at hfuel
      injection hfuel with hfuel
      have hAs : assign_positions bEight [] (6 : Int) emptyLayout = stA :=
        assignFuel_sound hA
      show (assign_positions bEight [] bEight.final_game emptyLayout).centerY 0
          = some 2
      rw [show bEight.final_game = (6 : Int) from rfl, hAs]
      exact hfuel
  have h := (hS bEight hok 0 0 hix).2.2
  rw [hcY] at h
  exact absurd h (by decide)

/-- C8 (corrected): during layout, leaves are positioned left-to-right in
traversal order from the final game with a global cursor advancing 5 rows
per leaf; the i-th leaf's slot rows are its band's row+1 and row+3 (rows
5i+1 and 5i+3) and its center row is its band's row+2 (row 5i+2), one below
the top slot row — not row+1 as the spec says; an internal game's slot rows
are its children's center rows and its center row is
(leftCenter + rightCenter + 1) / 2 in integer division. -/
theorem claim_C8_layout (b : BracketStructure) (hok : mkBracket b = .ok b) :
    ((layoutRun b).leafCursor = 5 * (leavesUnder b [] b.final_game).length)
    ∧ (∀ (i : Nat) (x : Int), (leavesUnder b [] b.final_game)[i]? = some x →
        (layoutRun b).slotY x 0 = some (5 * i + 1)
        ∧ (layoutRun b).slotY x 1 = some (5 * i + 3)
        ∧ (layoutRun b).centerY x = some (5 * i + 2))
    ∧ (∀ m lc rc, IsInternalAt b m lc rc →
        ∃ cl cr, (layoutRun b).centerY lc = some cl
          ∧ (layoutRun b).centerY rc = some cr
          ∧ (layoutRun b).slotY m 0 = some cl
          ∧ (layoutRun b).slotY m 1 = some cr
          ∧ (layoutRun b).centerY m = some ((cl + cr + 1) / 2)) :=
  layout_spec hok

theorem claim_C8_layout_witness :
    (layoutRun bEight).leafCursor
        = 5 * (leavesUnder bEight [] bEight.final_game).length
      ∧ (layoutRun bEight).centerY 0 = some 2 := by
  have hok : mkBracket bEight = .ok bEight := by
    rw [mkBracket_ok_iff]
    exact validateFuel_sound (show validateFuel 20 bEight = some [] from by decide)
  have hix : (leavesUnder bEight [] bEight.final_game)[0]? = some 0 := by
    rw [show leavesUnder bEight [] bEight.final_game = [0, 1, 2, 3] from
      leavesFuel_sound
        (show leavesFuel 20 bEight [] 6 = some [0, 1, 2, 3] from by decide)]
    rfl
  exact ⟨(claim_C8_layout bEight hok).1,
    ((claim_C8_layout bEight hok).2.1 0 0 hix).2.2⟩

theorem pbgStep_eval (x q : Int) (l r : Option Int)
    (m0 : Int → Option (Int × Nat)) :
    (match r with
      | some c => fun y => if y = c then some (q, 1) else
          (match l with
            | some c' => fun y' => if y' = c' then some (q, 0) else m0 y'
            | none => m0) y
      | none =>
        match l with
        | some c' => fun y' => if y' = c' then some (q, 0) else m0 y'
        | none => m0) x
    = ((if l = some x then [(q, 0)] else [])
        ++ (if r = some x then [(q, 1)] else [])).getLast?.or (m0 x) := by
  cases r with
  | some c =>
    dsimp only []
    by_cases hxc : x = c
    · rw [if_pos hxc, if_pos (show (some c : Option Int) = some x by rw [hxc]),
        List.getLast?_append]
      rfl
    · rw [if_neg hxc, if_neg (fun h => hxc (Option.some.inj h).symm),
        List.append_nil]
      cases l with
      | some d =>
        dsimp only []
        by_cases hxd : x = d
        · rw [if_pos hxd,
            if_pos (show (some d : Option Int) = some x by rw [hxd])]
          rfl
        · rw [if_neg hxd, if_neg (fun h => hxd (Option.some.inj h).symm)]
          rfl
      | none =>
        rw [if_neg (fun h => Option.noConfusion h)]
        rfl
  | none =>
    dsimp only []
    rw [if_neg (show ¬((none : Option Int) = some x) from
      fun h => Option.noConfusion h), List.append_nil]
    cases l with
    | some d =>
      dsimp only []
      by_cases hxd : x = d
      · rw [if_pos hxd,
          if_pos (show (some d : Option Int) = some x by rw [hxd])]
        rfl
      · rw [if_neg hxd, if_neg (fun h => hxd (Option.some.inj h).symm)]
        rfl
    | none =>
      rw [if_neg (fun h => Option.noConfusion h)]
      rfl

theorem pbg_general (x : Int) :
    ∀ (L : List (Int × Slots)) (m0 : Int → Option (Int × Nat)),
    (L.foldl (fun m it =>
      let m1 : Int → Option (Int × Nat) :=
        match it.2.1 with
        | some c => fun y => if y = c then some (it.1, 0) else m y
        | none => m
      match it.2.2 with
      | some c => fun y => if y = c then some (it.1, 1) else m1 y
      | none => m1) m0) x
    = ((L.map (fun it =>
        (if it.2.1 = some x then [(it.1, 0)] else [])
          ++ (if it.2.2 = some x then [(it.1, 1)] else []))).flatten).getLast?.or
        (m0 x) := by
  intro L
  induction L with
  | nil =>
    intro m0
    rfl
  | cons it tl ih =>
    intro m0
    rw [List.foldl_cons, List.map_cons, List.flatten_cons, List.getLast?_append,
      Option.or_assoc, ih]
    rcases it with ⟨q, l, r⟩
    exact congrArg (Option.or _) (pbgStep_eval x q l r m0)

theorem parent_by_game_of_singleton {b : BracketStructure} {g : Int}
    {ps : Int × Nat} (h : parentsList b g = [ps]) :
    parent_by_game b g = some ps := by
  have hgen : parent_by_game b g
      = (parentsList b g).getLast?.or ((fun _ => none) g) :=
    pbg_general g b.structure' (fun _ => none)
  rw [h] at hgen
  exact hgen

/-- C10: on a validly constructed bracket every non-final game has a parent
entry in `parent_by_game`, the slot row the parent reserves for it equals
the game's own center row, so the parent-bridge condition of drawing step 5
(`target_y = center_y[game_id]`) holds for every non-final game and the
no-bridge branch is never taken on a valid layout. -/
theorem claim_C10_parent_bridge (b : BracketStructure)
    (hok : mkBracket b = .ok b) (hnodup : (structKeys b).Nodup) :
    ∀ g ∈ structKeys b, g ≠ b.final_game →
      ∃ p s, parent_by_game b g = some (p, s)
        ∧ (layoutRun b).slotY p s = (layoutRun b).centerY g
        ∧ slotYI (layoutRun b) p s = centerYI (layoutRun b) g := by
  have hnil := mkBracket_ok_iff.mp hok
  obtain ⟨hk, hsh, hle, hf, ha, hre⟩ :=
    preDeriv_parts (preDeriv_nil_of_validate hnil)
  intro g hg hne
  obtain ⟨⟨p, s⟩, hsing⟩ := parentsList_singleton hsh hf hg hne
  have hmem : (p, s) ∈ parentsList b g := by
    rw [hsing]
    exact List.mem_singleton.mpr rfl
  obtain ⟨l, r, hit, hcase⟩ := mem_parentsList.mp hmem
  have hlp : lookupKey p b.structure' = some (l, r) :=
    lookupKey_of_mem_nodup hnodup hit
  rcases shape_of_valid hsh hlp with heq | ⟨lc, rc, heq, hlcne, hrcne, hlck, hrck⟩
  · exfalso
    injection heq with h1 h2
    rcases hcase with ⟨_, hls⟩ | ⟨_, hrs⟩
    · rw [h1] at hls
      cases hls
    · rw [h2] at hrs
      cases hrs
  · rw [heq] at hlp
    have hintp : IsInternalAt b p lc rc := hlp
    obtain ⟨cl, cr, hq1, hq2, hq3, hq4, hq5⟩ := (layout_spec hok).2.2 p lc rc hintp
    injection heq with h1 h2
    refine ⟨p, s, parent_by_game_of_singleton hsing, ?_, ?_⟩
    · rcases hcase with ⟨hs0, hls⟩ | ⟨hs1, hrs⟩
      · have hlcg : lc = g := by
          rw [hls] at h1
          exact (Option.some.inj h1).symm
        rw [hs0, hq3, ← hlcg, hq1]
      · have hrcg : rc = g := by
          rw [hrs] at h2
          exact (Option.some.inj h2).symm
        rw [hs1, hq4, ← hrcg, hq2]
    · unfold slotYI centerYI
      rcases hcase with ⟨hs0, hls⟩ | ⟨hs1, hrs⟩
      · have hlcg : lc = g := by
          rw [hls] at h1
          exact (Option.some.inj h1).symm
        rw [hs0, hq3, ← hlcg, hq1]
      · have hrcg : rc = g := by
          rw [hrs] at h2
          exact (Option.some.inj h2).symm
        rw [hs1, hq4, ← hrcg, hq2]

theorem claim_C10_parent_bridge_witness :
    ∃ p s, parent_by_game bEight 0 = some (p, s)
      ∧ (layoutRun bEight).slotY p s = (layoutRun bEight).centerY 0
      ∧ slotYI (layoutRun bEight) p s = centerYI (layoutRun bEight) 0 := by
  have hok : mkBracket bEight = .ok bEight := by
    rw [mkBracket_ok_iff]
    exact validateFuel_sound (show validateFuel 20 bEight = some [] from by decide)
  exact claim_C10_parent_bridge bEight hok (by decide) 0 (by decide) (by decide)
